import Mathlib

/-!
Verification of the still-life enumeration engine (lifeplets): a shallow
embedding of the search state and its operations, together with theorems
settling the specification claims about backtracking, undo, pruning and
the rule oracle.
-/

namespace Lifeplets

/-- Maximum number of live cells (source: `max_n = 16`). -/
def max_n : Int := 16

/-- Grid width (source: `width = max_n + 2`). -/
def width : Nat := 18

/-- Grid depth (source: `depth = max_n + 1`). -/
def depth : Nat := 17

/-- Number of cells in the flat padded grid (source: `len(pattern) = depth * width`). -/
def N : Nat := 306

/-- The anchor index (source: `start = width`). -/
def start : Nat := 18

/-- Birth table: `rule[0]`, all zero except `rule[0][3] = 1`. -/
def birth : List Bool :=
  [false, false, false, true, false, false, false, false, false]

/-- Survival table: `rule[1]`, all one except `rule[1][2] = rule[1][3] = 0`. -/
def survive : List Bool :=
  [true, true, false, false, true, true, true, true, true]

/-- Moore neighborhood offsets on the flat grid (source: `neighbors`). -/
def neighbors : List Int := [-19, -18, -17, -1, 1, 17, 18, 19]

/-- The full mutable search state of the engine.  `pattern` is the tri-state
grid (`none` = Unset), `freedoms`, `merge_undo_list` and `close_undo_list`
are insertion-ordered dictionaries modelled as association lists, and
`output` records each emitted pattern (the pattern emitter itself is an
external concern per the specification). -/
structure LPState where
  pattern : List (Option Bool)
  live_count : Int
  components : Finset Nat
  parents : List Int
  comp_size : List Int
  merge_undo_list : List (Nat × List Nat × Finset Nat)
  close_undo_list : List (Nat × List Nat)
  freedoms : List (Nat × Finset Nat)
  output : List (List (Option Bool))
  deriving DecidableEq

/-- Dictionary lookup on an association list (Python `d[k]` / `k in d`). -/
def alGet? {α : Type} : List (Nat × α) → Nat → Option α
  | [], _ => none
  | (k', v) :: rest, k => if k' = k then some v else alGet? rest k

/-- Dictionary update on an association list: overwrite in place if the key
is present, otherwise append at the end (Python `d[k] = v`). -/
def alSet {α : Type} : List (Nat × α) → Nat → α → List (Nat × α)
  | [], k, v => [(k, v)]
  | (k', v') :: rest, k, v =>
    if k' = k then (k, v) :: rest else (k', v') :: alSet rest k v

/-- Dictionary removal on an association list (Python `d.pop(k, default)`). -/
def alPop {α : Type} : List (Nat × α) → Nat → List (Nat × α)
  | [], _ => []
  | (k', v') :: rest, k => if k' = k then rest else (k', v') :: alPop rest k

/-- The keys of an association list. -/
def alKeys {α : Type} (l : List (Nat × α)) : List Nat := l.map Prod.fst

/-- Ascending enumeration of a finite set of naturals (the canonical order
in which the model iterates over a Python set where the order cannot
matter, and the inner `sorted` of `minimum_bridge_length`). -/
def finsetAsc (s : Finset Nat) : List Nat :=
  Quot.lift (List.insertionSort (fun a b : Nat => a ≤ b))
    (fun a b h =>
      (List.eq_of_perm_of_sorted
        ((a.perm_insertionSort _).trans (h.trans (b.perm_insertionSort _).symm))
        (List.sorted_insertionSort _ a) (List.sorted_insertionSort _ b) : _))
    s.val

/-- Cell state as seen by `check_rule_at`: out-of-range cells read as Dead
(source: `state = False; if 0 <= i < len(pattern): state = pattern[i]`). -/
def cellState (s : LPState) (i : Int) : Option Bool :=
  if 0 ≤ i ∧ i < (N : Int) then s.pattern.getD i.toNat none else some false

/-- One step of the neighbor scan of `check_rule_at`, updating the pair
(min_neighbors, max_neighbors). -/
def ruleBoundsStep (s : LPState) (final : Bool) (p : Nat × Nat) (j : Int) : Nat × Nat :=
  if j < 0 ∨ (N : Int) ≤ j ∨ s.pattern.getD j.toNat none = some false then
    (p.1, p.2 - 1)
  else if s.pattern.getD j.toNat none = some true then
    (p.1 + 1, p.2)
  else if final ∨ max_n ≤ s.live_count then
    (p.1, p.2 - 1)
  else p

/-- The feasible live-neighbor range `(min_neighbors, max_neighbors)`
computed by the scan loop of `check_rule_at`. -/
def ruleBounds (s : LPState) (i : Int) (final : Bool) : Nat × Nat :=
  neighbors.foldl (fun p d => ruleBoundsStep s final p (i + d)) (0, 8)

/-- Python `any(p(n) for n in range(mn, mx+1))`. -/
def existsInRange (mn mx : Nat) (p : Nat → Bool) : Bool :=
  ((List.range (mx + 1 - mn)).map (· + mn)).any p

/-- Source `check_rule_at(i, final)`: whether cell `i` can still be part of
a still life.  The Python function returns `True` or falls through to
`None`; only its truthiness is ever used, so it is modelled as `Bool`. -/
def check_rule_at (s : LPState) (i : Int) (final : Bool) : Bool :=
  let st := cellState s i
  let b := ruleBounds s i final
  (decide (st ≠ some true) && existsInRange b.1 b.2 (fun n => !(birth.getD n false)))
  || (decide (st ≠ some false) && existsInRange b.1 b.2 (fun n => survive.getD n false))

/-- Source `check_rule_near(i)`: the rule check on `i` and all 8 neighbors. -/
def check_rule_near (s : LPState) (i : Int) : Bool :=
  check_rule_at s i false && neighbors.all (fun d => check_rule_at s (i + d) false)

/-- Source `final_rule_check(i)`: the strict check (all unknowns Dead) on
the window `range(i-width-1, i+width+2)` of 39 cells. -/
def final_rule_check (s : LPState) (i : Int) : Bool :=
  (List.range 39).all (fun k => check_rule_at s (i - 19 + k) true)

/-- Root chasing without path compression (source: `while j >= 0 and
j != parents[j]: j = parents[j]`, then `if j < 0: raise`).  Any abnormal
outcome (negative ancestor, out-of-range index, or a parent cycle, which
in Python would loop forever) is `none`. -/
def findRoot (parents : List Int) : Nat → Int → Option Nat
  | 0, _ => none
  | fuel + 1, j =>
    if j < 0 then none
    else if (N : Int) ≤ j then none
    else if parents.getD j.toNat (-1) = j then some j.toNat
    else findRoot parents fuel (parents.getD j.toNat (-1))

/-- The scan of `merge_components` over the neighbor offsets, accumulating
the distinct roots found (`continue` on out-of-range or non-live cells). -/
def collectLoop (s : LPState) (i : Nat) : List Int → List Nat → Option (List Nat)
  | [], acc => some acc
  | d :: ds, acc =>
    let j : Int := (i : Int) + d
    if j < 0 ∨ (N : Int) ≤ j ∨ ¬s.pattern.getD j.toNat none = some true then
      collectLoop s i ds acc
    else
      (findRoot s.parents (N + 1) j).bind (fun r =>
        collectLoop s i ds (if r ∈ acc then acc else acc ++ [r]))

/-- The distinct component roots adjacent to cell `i`, in neighbor-offset
discovery order (source: the `nearby` set of `merge_components`; the
iteration order of a Python set is implementation-defined, so a
deterministic discovery order is used). -/
def collectRoots (s : LPState) (i : Nat) : Option (List Nat) :=
  collectLoop s i neighbors []

/-- The four forward growth offsets of a newly live cell
(source: `new_freedoms = {i+1, i+width-1, i+width, i+width+1}`). -/
def newFreedoms (i : Nat) : Finset Nat :=
  {i + 1, i + width - 1, i + width, i + width + 1}

/-- The absorb loop of `merge_components` (source: `for k in nearby[:-1]`):
fold each smaller adjacent component `k` into the surviving root `j`. -/
def absorbLoop (j : Nat) : List Nat → LPState → Option LPState
  | [], t => some t
  | k :: ks, t =>
    (alGet? t.freedoms k).bind (fun fk =>
      (alGet? t.freedoms j).bind (fun fj =>
        absorbLoop j ks
          { t with
            parents := t.parents.set k (j : Int)
            comp_size := t.comp_size.set j (t.comp_size.getD j 0 + t.comp_size.getD k 0)
            freedoms := alSet t.freedoms j (fj ∪ fk)
            components := t.components.erase k }))

/-- Source `merge_components(i)`: union the components adjacent to the newly
live cell `i` into the largest, or create a singleton component.  Python
exceptions (`raise`, `KeyError` from `freedoms[j]` or `set.remove`)
are `none`.  The size-tie order of `sorted(nearby, key=...)` over a Python
set is implementation-defined; a deterministic insertion sort over the
discovery-ordered roots is used. -/
def merge_components (s : LPState) (i : Nat) : Option LPState :=
  (collectRoots s i).bind (fun nearby =>
    match nearby with
    | [] =>
      some { s with
        parents := s.parents.set i (i : Int)
        comp_size := s.comp_size.set i 1
        freedoms := alSet s.freedoms i (newFreedoms i)
        components := insert i s.components }
    | _ :: _ =>
      let sorted := nearby.insertionSort
        (fun a b => s.comp_size.getD a 0 ≤ s.comp_size.getD b 0)
      let j := sorted.getLast?.getD 0
      (alGet? s.freedoms j).bind (fun old_freedoms =>
        (absorbLoop j sorted.dropLast s).bind (fun t =>
          (alGet? t.freedoms j).bind (fun fj =>
            if i ∈ fj then
              some { t with
                parents := t.parents.set i (j : Int)
                comp_size := (t.comp_size.set i 1).set j ((t.comp_size.set i 1).getD j 0 + 1)
                freedoms := alSet t.freedoms j (fj.erase i ∪ newFreedoms i)
                merge_undo_list := alSet t.merge_undo_list i (sorted, old_freedoms) }
            else none))))

/-- The split loop of `undo_component_merge` (source: `for k in
nearby[:-1]`): re-create a singleton component for every absorbed root,
checking the recorded parent (`raise` on mismatch is `none`). -/
def splitLoop (last : Nat) : List Nat → LPState → Option LPState
  | [], t => some t
  | k :: ks, t =>
    if k < N ∧ t.parents.getD k (-1) = (last : Int) then
      splitLoop last ks
        { t with
          parents := t.parents.set k (k : Int)
          comp_size := t.comp_size.set last (t.comp_size.getD last 0 - t.comp_size.getD k 0)
          components := insert k t.components }
    else none

/-- Source `undo_component_merge(i)`: exactly reverse the merge performed
when `i` was made live.  All `raise` paths and Python index/key errors
are `none`; the `parents[i] < 0` early `return` is the final case. -/
def undo_component_merge (s : LPState) (i : Nat) : Option LPState :=
  let j : Int := s.parents.getD i (-1)
  if 0 ≤ j ∧ ((N : Int) ≤ j ∨ ¬s.parents.getD j.toNat (-1) = j) then none
  else
    match alGet? s.merge_undo_list i with
    | some (nearby, old_freedoms) =>
      (nearby.getLast?).bind (fun last =>
        if ¬((last : Int) = j ∧ last < N) then none
        else
          let t0 := { s with
            merge_undo_list := alPop s.merge_undo_list i
            comp_size := s.comp_size.set last (s.comp_size.getD last 0 - 1) }
          (splitLoop last nearby.dropLast t0).map (fun t =>
            { t with
              freedoms := alSet t.freedoms last old_freedoms
              parents := t.parents.set i (-1)
              comp_size := t.comp_size.set i 0 }))
    | none =>
      if 0 ≤ j then
        if ¬((i : Int) = j ∧ (alGet? s.freedoms i).isSome ∧ i ∈ s.components) then none
        else
          some { s with
            components := s.components.erase i
            freedoms := alPop s.freedoms i
            parents := s.parents.set i (-1)
            comp_size := s.comp_size.set i 0 }
      else some s

/-- The freedom-set sweep of `close_components(i)`: walk the ordered
dictionary, remove `i` from every freedom set containing it, record the
touched components, and stop early (returning `false`) as soon as a set
becomes empty.  Returns (undo record, updated dictionary, ok flag). -/
def closeSweep (i : Nat) : List (Nat × Finset Nat) → List Nat × List (Nat × Finset Nat) × Bool
  | [] => ([], [], true)
  | (c, f) :: rest =>
    if i ∈ f then
      let f' := f.erase i
      if f'.card < 1 then ([c], (c, f') :: rest, false)
      else
        let r := closeSweep i rest
        (c :: r.1, (c, f') :: r.2.1, r.2.2)
    else
      let r := closeSweep i rest
      (r.1, (c, f) :: r.2.1, r.2.2)

/-- Source `close_components(i)`: remove the newly dead cell `i` from all
freedom sets, recording the undo list; `false` iff some set was emptied. -/
def close_components (s : LPState) (i : Nat) : Bool × LPState :=
  let r := closeSweep i s.freedoms
  (r.2.2, { s with
    freedoms := r.2.1
    close_undo_list := alSet s.close_undo_list i r.1 })

/-- The loop of `undo_component_close`: add `i` back to the freedom set of
each recorded component (a missing `freedoms[c]` key is a `KeyError`). -/
def restoreFreedoms (i : Nat) : List Nat → List (Nat × Finset Nat) → Option (List (Nat × Finset Nat))
  | [], fr => some fr
  | c :: cs, fr =>
    (alGet? fr c).bind (fun f => restoreFreedoms i cs (alSet fr c (insert i f)))

/-- Source `undo_component_close(i)`: add `i` back to the freedom set of
every component recorded in `close_undo_list[i]`. -/
def undo_component_close (s : LPState) (i : Nat) : Option LPState :=
  (restoreFreedoms i ((alGet? s.close_undo_list i).getD []) s.freedoms).map
    (fun fr =>
      { s with freedoms := fr, close_undo_list := alPop s.close_undo_list i })

/-- Lexicographic comparison of integer lists, as Python compares lists. -/
def lexLe : List Int → List Int → Bool
  | [], _ => true
  | _ :: _, [] => false
  | a :: as, b :: bs => if a < b then true else if b < a then false else lexLe as bs

/-- The sorted column range of one component's freedom set
(source: `sorted(i % width for i in freedoms[c])`). -/
def innerRange (f : Finset Nat) : List Int :=
  ((finsetAsc f).map (fun x => ((x % width : Nat) : Int))).insertionSort
    (fun a b : Int => a ≤ b)

/-- Python `max(i for i in l if i <= x)`; `none` on an empty selection. -/
def listMaxLe (l : List Int) (x : Int) : Option Int :=
  (l.filter (fun i => decide (i ≤ x))).max?

/-- Python `min(i for i in l if i >= x)`; `none` on an empty selection. -/
def listMinGe (l : List Int) (x : Int) : Option Int :=
  (l.filter (fun i => decide (x ≤ i))).min?

/-- The loop state of the interval sweep in `minimum_bridge_length`.
The Python stack grows at the end; here the most recent entry is the head. -/
structure SweepState where
  prev : List Int
  stack : List (List Int × Int)
  parent : Option (List Int)
  gap_sum : Int
  gap_max : Int

/-- The inner `while` loop of the sweep: close nesting contexts while the
new range starts at or beyond the current parent's end.  The fuel is the
stack length (each iteration pops). -/
def sweepWhile (curr0 : Int) : Nat → SweepState → Option SweepState
  | 0, _ => none
  | fuel + 1, st =>
    match st.stack with
    | [] => some st
    | top :: rest =>
      match st.parent with
      | none => none
      | some par =>
        match par.getLast? with
        | none => none
        | some parLast =>
          if curr0 < parLast then some st
          else
            match st.prev.getLast? with
            | none => none
            | some prevLast =>
              match listMinGe par prevLast with
              | none => none
              | some m =>
                let gap := m - prevLast
                let gmax := max gap st.gap_max
                sweepWhile curr0 fuel
                  { prev := top.1
                    stack := rest
                    parent := match rest with
                      | [] => some par
                      | t :: _ => some t.1
                    gap_sum := st.gap_sum + gap - gmax
                    gap_max := top.2 }

/-- The main `for curr in ranges[1:]` loop of `minimum_bridge_length`. -/
def sweepFor : List (List Int) → SweepState → Option SweepState
  | [], st => some st
  | curr :: rest, st =>
    (curr.head?).bind (fun curr0 =>
      (st.prev.getLast?).bind (fun prevLast =>
        if curr0 < prevLast then
          (listMaxLe st.prev curr0).bind (fun m =>
            sweepFor rest
              { prev := st.prev
                stack := (st.prev, st.gap_max) :: st.stack
                parent := some st.prev
                gap_sum := st.gap_sum + (curr0 - m)
                gap_max := curr0 - m })
        else
          (sweepWhile curr0 (st.stack.length + 1) st).bind (fun st' =>
            (st'.prev.getLast?).bind (fun prevLast' =>
              let gap := curr0 - prevLast'
              sweepFor rest
                { prev := curr
                  stack := st'.stack
                  parent := st'.parent
                  gap_sum := st'.gap_sum + gap
                  gap_max := max gap st'.gap_max }))))

/-- The core of `minimum_bridge_length`, reading only the component set and
the freedom dictionary (the only global state the source function reads). -/
def mbl_core (components : Finset Nat) (freedoms : List (Nat × Finset Nat)) : Option Int :=
  if components.card < 2 then some 0
  else
    ((finsetAsc components).mapM
      (fun c => (alGet? freedoms c).map innerRange)).bind (fun rs0 =>
      let ranges := rs0.insertionSort (fun a b => lexLe a b = true)
      (ranges.head?).bind (fun first =>
        (sweepFor (ranges.drop 1 ++ [first.map (· + (width : Int))])
          { prev := first, stack := [], parent := none, gap_sum := 0, gap_max := 0 }).map
          (fun st => st.gap_sum - st.gap_max + (components.card : Int) - 1)))

/-- Source `minimum_bridge_length()`: the lower-bound estimate on the cells
needed to join all components; `0` with fewer than two components.  Python
exceptions (empty `min`/`max`/index errors) are `none`. -/
def minimum_bridge_length (s : LPState) : Option Int :=
  mbl_core s.components s.freedoms

/-- Source `print_pattern(i)`: the pattern emitter is external (spec §4.5);
the emission event is recorded by appending the current grid to `output`. -/
def print_pattern (s : LPState) : LPState :=
  { s with output := s.output ++ [s.pattern] }

/-- The opening phase of `set_pattern(i, state)` after the grid write: the
live-count adjustment and the undo of the previous attempt at `i`
(source lines: `if old_state: live_count -= 1` through
`if old_state == False: undo_component_close(i)`).  `none` when
`state == old_state` (the source returns early) or when an undo raises. -/
def set_pattern_pre (s : LPState) (i : Nat) (st : Option Bool) : Option LPState :=
  let old := s.pattern.getD i none
  if st = old then none
  else
    let s1 := { s with pattern := s.pattern.set i st }
    let s2 := if old = some true then { s1 with live_count := s1.live_count - 1 } else s1
    let s3 := if st = some true then { s2 with live_count := s2.live_count + 1 } else s2
    (if old = some true then undo_component_merge s3 i else some s3).bind
      (fun s4 => if old = some false then undo_component_close s4 i else some s4)

/-- The closing checks of `set_pattern`: the hard-coded domain constraints
(`state and i < start`, `not state and i == start`) and the rule check. -/
def set_pattern_tail (s : LPState) (i : Nat) (st : Option Bool) : Bool :=
  if st = some true ∧ i < start then false
  else if ¬st = some true ∧ i = start then false
  else check_rule_near s (i : Int)

/-- Source `set_pattern(i, state)`: returns the accept/reject flag and the
updated state; `none` when the Python code would raise. -/
def set_pattern (s : LPState) (i : Int) (st : Option Bool) : Option (Bool × LPState) :=
  if i < 0 ∨ (N : Int) ≤ i then some (false, s)
  else
    let iN := i.toNat
    if st = s.pattern.getD iN none then
      some (true, { s with pattern := s.pattern.set iN st })
    else
      (set_pattern_pre s iN st).bind (fun s5 =>
        if st = some true then
          (merge_components s5 iN).bind (fun s6 =>
            if max_n < s6.live_count + (s6.components.card : Int) - 1 then
              some (false, s6)
            else
              (minimum_bridge_length s6).bind (fun b =>
                if max_n < s6.live_count + b then some (false, s6)
                else some (set_pattern_tail s6 iN st, s6)))
        else if st = some false then
          let r := close_components s5 iN
          if r.1 then some (set_pattern_tail r.2 iN st, r.2)
          else
            let s7 :=
              if r.2.components.card = 1 ∧ final_rule_check r.2 (iN : Int) = true then
                print_pattern r.2
              else r.2
            some (false, s7)
        else
          some (set_pattern_tail s5 iN st, s5))

/-- The driver's cursor together with the search state. -/
structure DriverState where
  cursor : Int
  st : LPState
  deriving DecidableEq

/-- The initial search state (all cells Unset, empty structures). -/
def init_state : LPState where
  pattern := List.replicate N none
  live_count := 0
  components := ∅
  parents := List.replicate N (-1)
  comp_size := List.replicate N 0
  merge_undo_list := []
  close_undo_list := []
  freedoms := []
  output := []

/-- The initial driver state (`i = 0`). -/
def init_driver : DriverState := ⟨0, init_state⟩

/-- One iteration of the driver `while i >= 0` loop: dispatch on the
tri-state marker at the cursor.  `none` when the loop has exited
(`cursor < 0`), when `pattern[i]` would raise `IndexError`, or when the
`set_pattern` call raises. -/
def driver_step (d : DriverState) : Option DriverState :=
  if d.cursor < 0 then none
  else if (N : Int) ≤ d.cursor then none
  else
    match d.st.pattern.getD d.cursor.toNat none with
    | none =>
      (set_pattern d.st d.cursor (some false)).map
        (fun r => ⟨if r.1 then d.cursor + 1 else d.cursor, r.2⟩)
    | some false =>
      (set_pattern d.st d.cursor (some true)).map
        (fun r => ⟨if r.1 then d.cursor + 1 else d.cursor, r.2⟩)
    | some true =>
      (set_pattern d.st d.cursor none).map (fun r => ⟨d.cursor - 1, r.2⟩)

/-- The states visited by the driver loop, between top-level
`set_pattern` calls. -/
inductive Reachable : DriverState → Prop
  | init : Reachable init_driver
  | step {d d' : DriverState} : Reachable d → driver_step d = some d' → Reachable d'

/-- The driver state after `n` iterations of the loop. -/
def driverIter : Nat → Option DriverState
  | 0 => some init_driver
  | n + 1 => (driverIter n).bind driver_step

/-! ### Representation invariant of reachable search states -/

/-- The well-formedness invariant maintained by the driver between
top-level `set_pattern` calls: list lengths, key uniqueness of the three
dictionaries, the lifecycle discipline (freedom keys, merge-undo keys and
component members are Alive cells; non-Alive cells are outside the forest
with zero size; roots and components coincide), and well-formed merge
records. -/
def StateInv (s : LPState) : Prop :=
  s.pattern.length = N ∧
  s.parents.length = N ∧
  s.comp_size.length = N ∧
  (alKeys s.freedoms).Nodup ∧
  (alKeys s.merge_undo_list).Nodup ∧
  (alKeys s.close_undo_list).Nodup ∧
  (∀ k ∈ alKeys s.freedoms, ¬s.parents.getD k (-1) = -1) ∧
  (∀ k ∈ alKeys s.merge_undo_list, s.pattern.getD k none = some true) ∧
  (∀ k ∈ alKeys s.close_undo_list, s.pattern.getD k none = some false) ∧
  (∀ k, k < N → ¬s.pattern.getD k none = some true → s.parents.getD k (-1) = -1) ∧
  (∀ k, k < N → s.parents.getD k (-1) = -1 → s.comp_size.getD k 0 = 0) ∧
  (∀ k, k < N → s.parents.getD k (-1) = (k : Int) → k ∈ s.components) ∧
  (∀ k ∈ s.components, k < N ∧ s.parents.getD k (-1) = (k : Int)) ∧
  (∀ k, k < N → -1 ≤ s.parents.getD k (-1)) ∧
  (∀ k ∈ alKeys s.merge_undo_list, ¬k ∈ alKeys s.freedoms) ∧
  (∀ k ∈ alKeys s.merge_undo_list, ¬s.parents.getD k (-1) = (k : Int)) ∧
  (∀ p ∈ s.merge_undo_list, ¬p.1 ∈ p.2.1) ∧
  (∀ p ∈ s.merge_undo_list, ∀ k ∈ p.2.1.dropLast,
    k < N ∧ ¬k ∈ alKeys s.merge_undo_list ∧ ¬s.parents.getD k (-1) = -1 ∧
      ¬s.parents.getD k (-1) = (k : Int)) ∧
  (∀ p ∈ s.merge_undo_list, ∀ q ∈ s.merge_undo_list, ∀ k ∈ p.2.1.dropLast,
    k ∈ q.2.1.dropLast → p = q)

instance (s : LPState) : Decidable (StateInv s) := by
  unfold StateInv
  repeat' refine @instDecidableAnd _ _ ?_ ?_
  all_goals infer_instance

/-! ### Definitions modelled from the specification's wording (for the
rule-oracle refinement claim) -/

/-- Modelled from the spec: the number of definitely-Alive neighbors of
cell `i` ("a neighbor counts toward `min` if definitely Alive", i.e. it is
in range, not definitely Dead, and marked Alive). -/
def spec_min_neighbors (s : LPState) (i : Int) : Nat :=
  (neighbors.filter (fun d => decide (
    ¬(i + d < 0 ∨ (N : Int) ≤ i + d ∨ s.pattern.getD (i + d).toNat none = some false) ∧
    s.pattern.getD (i + d).toNat none = some true))).length

/-- Modelled from the spec: the optimistic upper bound on live neighbors
("it is excluded from `max` if definitely Dead [or out of range]; an Unset
neighbor counts toward the optimistic `max` unless the live-cell budget is
already exhausted or a final check is in effect"). -/
def spec_max_neighbors (s : LPState) (i : Int) (final : Bool) : Nat :=
  8 - (neighbors.filter (fun d => decide (
    (i + d < 0 ∨ (N : Int) ≤ i + d ∨ s.pattern.getD (i + d).toNat none = some false) ∨
    (¬s.pattern.getD (i + d).toNat none = some true ∧
      (final = true ∨ max_n ≤ s.live_count))))).length

/-- Modelled from the spec (claim C4's reading): the cell is feasible if
and only if, for each polarity still open for its current state, at least
one admissible neighbor count exists in the feasible range — i.e. a
conjunction over the open polarities. -/
def claim_rule_feasible (s : LPState) (i : Int) (final : Bool) : Bool :=
  let st := cellState s i
  let mn := spec_min_neighbors s i
  let mx := spec_max_neighbors s i final
  (!(decide (st ≠ some true)) || existsInRange mn mx (fun n => !(birth.getD n false)))
  && (!(decide (st ≠ some false)) || existsInRange mn mx (fun n => survive.getD n false))

/-! ### The true connection cost model for the bridge-length claim -/

/-- Two cells of the flat grid are Moore-adjacent (the flat-offset
neighborhood actually used by `merge_components`). -/
def cellAdj (a b : Nat) : Bool :=
  (a + 1 == b) || (b + 1 == a) || (a + 17 == b) || (b + 17 == a) ||
  (a + 18 == b) || (b + 18 == a) || (a + 19 == b) || (b + 19 == a)

/-- One round of reachability propagation over the units of a synthetic
configuration: unit `n < k` is component `n` (connected to a placed cell
through membership of that cell in its freedom set), unit `k + m` is the
`m`-th placed cell (connected to other placed cells by Moore adjacency). -/
def connectStep (fsets : List (Finset Nat)) (cells : List Nat) (reach : List Bool) : List Bool :=
  (List.range (fsets.length + cells.length)).map (fun u =>
    reach.getD u false ||
    ((List.range (fsets.length + cells.length)).any (fun v =>
      reach.getD v false &&
      (if hu : u < fsets.length then
        match cells.get? (v - fsets.length) with
        | some cv => decide (fsets.length ≤ v) && decide (cv ∈ fsets.get ⟨u, hu⟩)
        | none => false
      else
        match cells.get? (u - fsets.length) with
        | some cu =>
          (if hv : v < fsets.length then decide (cu ∈ fsets.get ⟨v, hv⟩)
           else
            match cells.get? (v - fsets.length) with
            | some cv => cellAdj cu cv
            | none => false)
        | none => false))))

/-- Iterated reachability propagation. -/
def connectIter (fsets : List (Finset Nat)) (cells : List Nat) : Nat → List Bool
  | 0 => (List.range (fsets.length + cells.length)).map (fun u => u == 0)
  | n + 1 => connectStep fsets cells (connectIter fsets cells n)

/-- Whether placing the cells `S` connects all components of the synthetic
configuration `fsets` into one: every unit is reached from component 0
after closing the adjacency relation. -/
def connectsAll (fsets : List (Finset Nat)) (S : Finset Nat) : Bool :=
  let cells := finsetAsc S
  let n := fsets.length + cells.length
  (List.range fsets.length).all (fun t => (connectIter fsets cells n).getD t false)

/-! ### Concrete states used by counterexamples and witnesses -/

/-- The synthetic bridge configuration: three components (roots 19, 21,
35) whose freedom sets are the singletons 37, 39 and 36. -/
def bridge_cfg : LPState :=
  { init_state with
    components := {35, 19, 21}
    freedoms := [(35, {36}), (19, {37}), (21, {39})] }

/-- The freedom sets of `bridge_cfg` as a list. -/
def bridge_fsets : List (Finset Nat) := [{36}, {37}, {39}]

/-- A set of four cells that connects all three components of
`bridge_cfg`. -/
def bridge_S : Finset Nat := {36, 37, 38, 39}

/-- The state crafted for the rule-oracle counterexample: cell 40 is
Unset, its neighbors 21 and 22 are Alive, its other six neighbors are
Dead, so its live-neighbor range is exactly [2,2]. -/
def oracle_cex_state : LPState :=
  { init_state with
    pattern :=
      ((((((((List.replicate N none).set 21 (some true)).set 22 (some true)).set 23
        (some false)).set 39 (some false)).set 41 (some false)).set 57
        (some false)).set 58 (some false)).set 59 (some false)
    live_count := 2 }

/-- The concrete three-phase cycle at cell 20 from the initial state:
the Dead attempt. -/
def c1A : Bool × LPState :=
  (set_pattern init_state 20 (some false)).getD (false, init_state)

/-- The concrete cycle at cell 20: the Alive attempt after the Dead one. -/
def c1B : Bool × LPState :=
  (set_pattern c1A.2 20 (some true)).getD (false, init_state)

/-- The concrete cycle at cell 20: the final Unset reset. -/
def c1C : Bool × LPState :=
  (set_pattern c1B.2 20 none).getD (false, init_state)

/-- The driver state after 38 loop iterations: the whole first row and
cells 19..36 are Dead, the anchor cell 18 is Alive with its one remaining
freedom at column cell 37, and the cursor sits at cell 37. -/
def d38 : DriverState :=
  ⟨37,
   { pattern := (List.range N).map (fun k =>
       if k = 18 then some true else if k < 37 then some false else none)
     live_count := 1
     components := {18}
     parents := (List.range N).map (fun k => if k = 18 then (18 : Int) else -1)
     comp_size := (List.range N).map (fun k => if k = 18 then (1 : Int) else 0)
     merge_undo_list := []
     close_undo_list :=
       ((List.range 18).map (fun k => (k, ([] : List Nat)))) ++
         [(19, [18])] ++
         ((List.range 15).map (fun k => (k + 20, ([] : List Nat)))) ++
         [(35, [18]), (36, [18])]
     freedoms := [(18, {37})]
     output := [] }⟩

/-- The result of the 39th driver call `set_pattern(37, False)`: the Dead
marking that empties component 18's freedom set and is rejected. -/
def c3r : Bool × LPState :=
  (set_pattern d38.st 37 (some false)).getD (true, init_state)

/-- The result of `set_pattern(2, True)` from the initial state: an Alive
attempt at a pre-anchor cell that is not among the first two positions. -/
def c6r : Bool × LPState :=
  (set_pattern init_state 2 (some true)).getD (true, init_state)

/-- The pre-phase state of the Alive attempt at cell 20 following the
concrete Dead attempt `c1A` (for the budget-gate witness). -/
def c7s5 : LPState :=
  (set_pattern_pre c1A.2 20 (some true)).getD init_state

/-- The post-merge state of that Alive attempt at cell 20. -/
def c7s6 : LPState :=
  (merge_components c7s5 20).getD init_state

/-! ## Lemmas on association lists -/

theorem alGet?_not_mem {α : Type} {l : List (Nat × α)} {k : Nat}
    (h : ¬k ∈ alKeys l) : alGet? l k = none := by
  induction l with
  | nil => rfl
  | cons p rest ih =>
    obtain ⟨a, b⟩ := p
    simp only [alKeys, List.map_cons, List.mem_cons, not_or] at h
    have hak : ¬a = k := fun hk => h.1 hk.symm
    simp only [alGet?, if_neg hak]
    exact ih h.2

theorem alGet?_isSome_of_mem {α : Type} {l : List (Nat × α)} {k : Nat}
    (h : k ∈ alKeys l) : (alGet? l k).isSome = true := by
  induction l with
  | nil => simp [alKeys] at h
  | cons p rest ih =>
    obtain ⟨a, b⟩ := p
    simp only [alKeys, List.map_cons, List.mem_cons] at h
    by_cases hk : a = k
    · simp [alGet?, hk]
    · simp only [alGet?, if_neg hk]
      exact ih (h.resolve_left (fun hh => hk hh.symm))

theorem mem_alKeys_of_isSome {α : Type} {l : List (Nat × α)} {k : Nat}
    (h : (alGet? l k).isSome = true) : k ∈ alKeys l := by
  by_contra hk
  rw [alGet?_not_mem hk] at h
  simp at h

theorem alKeys_alSet_of_mem {α : Type} {l : List (Nat × α)} {k : Nat} (v : α)
    (h : k ∈ alKeys l) : alKeys (alSet l k v) = alKeys l := by
  induction l with
  | nil => simp [alKeys] at h
  | cons p rest ih =>
    obtain ⟨a, b⟩ := p
    simp only [alKeys, List.map_cons, List.mem_cons] at h
    by_cases hk : a = k
    · simp [alSet, if_pos hk, alKeys, hk]
    · simp only [alSet, if_neg hk, alKeys, List.map_cons, List.cons.injEq, true_and]
      exact ih (h.resolve_left (fun hh => hk hh.symm))

theorem alKeys_alSet_of_not_mem {α : Type} {l : List (Nat × α)} {k : Nat} (v : α)
    (h : ¬k ∈ alKeys l) : alKeys (alSet l k v) = alKeys l ++ [k] := by
  induction l with
  | nil => rfl
  | cons p rest ih =>
    obtain ⟨a, b⟩ := p
    simp only [alKeys, List.map_cons, List.mem_cons, not_or] at h
    have hak : ¬a = k := fun hk => h.1 hk.symm
    simp only [alSet, if_neg hak, alKeys, List.map_cons, List.cons_append,
      List.cons.injEq, true_and]
    exact ih h.2

theorem alKeys_alSet_nodup {α : Type} {l : List (Nat × α)} {k : Nat} (v : α)
    (h : (alKeys l).Nodup) : (alKeys (alSet l k v)).Nodup := by
  by_cases hm : k ∈ alKeys l
  · rw [alKeys_alSet_of_mem v hm]; exact h
  · rw [alKeys_alSet_of_not_mem v hm]
    refine List.Nodup.append h (List.nodup_singleton k) ?_
    intro a ha hak
    simp only [List.mem_singleton] at hak
    exact hm (hak ▸ ha)

theorem alKeys_alPop_sublist {α : Type} (l : List (Nat × α)) (k : Nat) :
    (alKeys (alPop l k)).Sublist (alKeys l) := by
  induction l with
  | nil => simp [alPop]
  | cons p rest ih =>
    obtain ⟨a, b⟩ := p
    by_cases hk : a = k
    · simp only [alPop, if_pos hk, alKeys, List.map_cons]
      exact List.sublist_cons_self _ _
    · simp only [alPop, if_neg hk, alKeys, List.map_cons]
      exact ih.cons₂ _

theorem alKeys_alPop_nodup {α : Type} {l : List (Nat × α)} {k : Nat}
    (h : (alKeys l).Nodup) : (alKeys (alPop l k)).Nodup :=
  (alKeys_alPop_sublist l k).nodup h

theorem alGet?_alSet_self {α : Type} (l : List (Nat × α)) (k : Nat) (v : α) :
    alGet? (alSet l k v) k = some v := by
  induction l with
  | nil => simp [alSet, alGet?]
  | cons p rest ih =>
    obtain ⟨a, b⟩ := p
    by_cases hk : a = k
    · simp [alSet, if_pos hk, alGet?]
    · simp [alSet, if_neg hk, alGet?, if_neg hk, ih]

theorem alGet?_alSet_ne {α : Type} (l : List (Nat × α)) {k k' : Nat} (v : α)
    (h : ¬k = k') : alGet? (alSet l k v) k' = alGet? l k' := by
  induction l with
  | nil => simp [alSet, alGet?, if_neg h]
  | cons p rest ih =>
    obtain ⟨a, b⟩ := p
    by_cases hk : a = k
    · subst hk
      simp [alSet, alGet?, if_neg h]
    · simp [alSet, if_neg hk, alGet?, ih]

theorem alPop_alSet_fresh {α : Type} {l : List (Nat × α)} {k : Nat} (v : α)
    (h : ¬k ∈ alKeys l) : alPop (alSet l k v) k = l := by
  induction l with
  | nil => simp [alSet, alPop]
  | cons p rest ih =>
    obtain ⟨a, b⟩ := p
    simp only [alKeys, List.map_cons, List.mem_cons, not_or] at h
    have hak : ¬a = k := fun hk => h.1 hk.symm
    simp only [alSet, if_neg hak, alPop, if_neg hak, List.cons.injEq, true_and]
    exact ih h.2

theorem alPop_fresh {α : Type} {l : List (Nat × α)} {k : Nat}
    (h : ¬k ∈ alKeys l) : alPop l k = l := by
  induction l with
  | nil => rfl
  | cons p rest ih =>
    obtain ⟨a, b⟩ := p
    simp only [alKeys, List.map_cons, List.mem_cons, not_or] at h
    have hak : ¬a = k := fun hk => h.1 hk.symm
    simp only [alPop, if_neg hak, List.cons.injEq, true_and]
    exact ih h.2

theorem alSet_alSet_same {α : Type} (l : List (Nat × α)) (k : Nat) (v w : α) :
    alSet (alSet l k v) k w = alSet l k w := by
  induction l with
  | nil => simp [alSet]
  | cons p rest ih =>
    obtain ⟨a, b⟩ := p
    by_cases hk : a = k
    · simp [alSet, if_pos hk]
    · simp [alSet, if_neg hk, ih]

theorem getD_set_self {α : Type} (l : List α) (i : Nat) (v d : α) (h : i < l.length) :
    (l.set i v).getD i d = v := by
  induction l generalizing i with
  | nil => simp at h
  | cons a rest ih =>
    cases i with
    | zero => rfl
    | succ n =>
      simp only [List.set_cons_succ, List.getD_cons_succ]
      exact ih n (by simpa using h)

theorem getD_set_ne {α : Type} (l : List α) {i j : Nat} (v d : α) (h : ¬i = j) :
    (l.set i v).getD j d = l.getD j d := by
  induction l generalizing i j with
  | nil => simp
  | cons a rest ih =>
    cases i with
    | zero =>
      cases j with
      | zero => exact absurd rfl h
      | succ m => simp
    | succ n =>
      cases j with
      | zero => simp
      | succ m =>
        simp only [List.set_cons_succ, List.getD_cons_succ]
        exact ih (fun hh => h (by rw [hh]))

theorem set_getD_self {α : Type} {l : List α} {i : Nat} {v d : α}
    (hlt : i < l.length) (h : l.getD i d = v) : l.set i v = l := by
  induction l generalizing i with
  | nil => simp at hlt
  | cons a rest ih =>
    cases i with
    | zero => simp only [List.getD_cons_zero] at h; simp [h]
    | succ n =>
      simp only [List.getD_cons_succ] at h
      simp only [List.set_cons_succ, List.cons.injEq, true_and]
      exact ih (by simpa using hlt) h

theorem set_ge_length {α : Type} (l : List α) (i : Nat) (v : α) (h : l.length ≤ i) :
    l.set i v = l := by
  induction l generalizing i with
  | nil => rfl
  | cons a rest ih =>
    cases i with
    | zero => simp at h
    | succ n =>
      simp only [List.set_cons_succ, List.cons.injEq, true_and]
      exact ih n (by simpa using h)

theorem length_foldl_set {α : Type} (ks : List Nat) (f : Nat → α) (l0 : List α) :
    (ks.foldl (fun l k => l.set k (f k)) l0).length = l0.length := by
  induction ks generalizing l0 with
  | nil => rfl
  | cons k ks ih => simp [List.foldl_cons, ih]

theorem foldl_set_getD {α : Type} (ks : List Nat) (f : Nat → α) (l0 : List α)
    (m : Nat) (d : α) :
    (ks.foldl (fun l k => l.set k (f k)) l0).getD m d =
      if m ∈ ks ∧ m < l0.length then f m else l0.getD m d := by
  induction ks generalizing l0 with
  | nil => simp
  | cons k ks ih =>
    simp only [List.foldl_cons]
    rw [ih, List.length_set]
    by_cases hm : m ∈ ks
    · by_cases hlen : m < l0.length
      · rw [if_pos ⟨hm, hlen⟩, if_pos ⟨List.mem_cons_of_mem k hm, hlen⟩]
      · rw [if_neg (fun h => hlen h.2), if_neg (fun h => hlen h.2)]
        by_cases hk : k = m
        · subst hk
          rw [set_ge_length _ _ _ (by omega)]
        · rw [getD_set_ne _ _ _ hk]
    · by_cases hk : k = m
      · subst hk
        rw [if_neg (fun h => hm h.1)]
        by_cases hlen : k < l0.length
        · rw [getD_set_self _ _ _ _ hlen, if_pos ⟨List.mem_cons_self k ks, hlen⟩]
        · rw [set_ge_length _ _ _ (by omega), if_neg (fun h => hlen h.2)]
      · rw [if_neg (fun h => hm h.1), getD_set_ne _ _ _ hk,
          if_neg (fun h => (List.mem_cons.mp h.1).elim (fun hh => hk hh.symm) hm)]

theorem alSet_self {α : Type} {l : List (Nat × α)} {k : Nat} {v : α}
    (h : alGet? l k = some v) : alSet l k v = l := by
  induction l with
  | nil => simp [alGet?] at h
  | cons p rest ih =>
    obtain ⟨a, b⟩ := p
    by_cases hk : a = k
    · subst hk
      simp only [alGet?, if_pos rfl] at h
      have hbv : b = v := Option.some.inj h
      subst hbv
      simp [alSet]
    · simp only [alGet?, if_neg hk] at h
      simp [alSet, if_neg hk, ih h]

/-! ## The close sweep and its exact undo -/

theorem alGet?_cons_self {α : Type} (a : Nat) (v : α) (rest : List (Nat × α)) :
    alGet? ((a, v) :: rest) a = some v := by
  simp [alGet?]

theorem alSet_cons_self {α : Type} (a : Nat) (v w : α) (rest : List (Nat × α)) :
    alSet ((a, v) :: rest) a w = (a, w) :: rest := by
  simp [alSet]

theorem closeSweep_cons (i a : Nat) (f : Finset Nat) (rest : List (Nat × Finset Nat)) :
    closeSweep i ((a, f) :: rest) =
      if i ∈ f then
        if (f.erase i).card < 1 then ([a], (a, f.erase i) :: rest, false)
        else
          (a :: (closeSweep i rest).1, (a, f.erase i) :: (closeSweep i rest).2.1,
            (closeSweep i rest).2.2)
      else ((closeSweep i rest).1, (a, f) :: (closeSweep i rest).2.1, (closeSweep i rest).2.2) := by
  rfl

theorem closeSweep_records_mem (i : Nat) (l : List (Nat × Finset Nat)) :
    ∀ c ∈ (closeSweep i l).1, c ∈ alKeys l := by
  induction l with
  | nil => simp [closeSweep]
  | cons p rest ih =>
    obtain ⟨a, f⟩ := p
    rw [closeSweep_cons]
    by_cases hm : i ∈ f
    · rw [if_pos hm]
      by_cases hc : (f.erase i).card < 1
      · rw [if_pos hc]
        intro c hcmem
        simp only [List.mem_singleton] at hcmem
        exact hcmem ▸ List.mem_cons_self a _
      · rw [if_neg hc]
        intro c hcmem
        rcases List.mem_cons.mp hcmem with h | h
        · exact h ▸ List.mem_cons_self a _
        · exact List.mem_cons.mpr (Or.inr (ih c h))
    · rw [if_neg hm]
      intro c hcmem
      exact List.mem_cons.mpr (Or.inr (ih c hcmem))

theorem closeSweep_keys (i : Nat) (l : List (Nat × Finset Nat)) :
    alKeys (closeSweep i l).2.1 = alKeys l := by
  induction l with
  | nil => rfl
  | cons p rest ih =>
    obtain ⟨a, f⟩ := p
    rw [closeSweep_cons]
    by_cases hm : i ∈ f
    · rw [if_pos hm]
      by_cases hc : (f.erase i).card < 1
      · rw [if_pos hc]
        simp [alKeys]
      · rw [if_neg hc]
        simp only [alKeys, List.map_cons, List.cons.injEq, true_and]
        exact ih
    · rw [if_neg hm]
      simp only [alKeys, List.map_cons, List.cons.injEq, true_and]
      exact ih

theorem restoreFreedoms_cons_commute (i c : Nat) (f : Finset Nat)
    (cs : List Nat) (m : List (Nat × Finset Nat)) (h : ¬c ∈ cs) :
    restoreFreedoms i cs ((c, f) :: m) = (restoreFreedoms i cs m).map ((c, f) :: ·) := by
  induction cs generalizing m with
  | nil => rfl
  | cons c' cs' ih =>
    simp only [List.mem_cons, not_or] at h
    have hcc : ¬c = c' := h.1
    simp only [restoreFreedoms, alGet?, if_neg hcc]
    cases hg : alGet? m c' with
    | none => rfl
    | some fv =>
      simp only [Option.some_bind]
      have : alSet ((c, f) :: m) c' (insert i fv) = (c, f) :: alSet m c' (insert i fv) := by
        simp [alSet, if_neg hcc]
      rw [this, ih _ h.2]

theorem closeSweep_restore (i : Nat) (l : List (Nat × Finset Nat))
    (hnd : (alKeys l).Nodup) :
    restoreFreedoms i (closeSweep i l).1 (closeSweep i l).2.1 = some l := by
  induction l with
  | nil => rfl
  | cons p rest ih =>
    obtain ⟨a, f⟩ := p
    simp only [alKeys, List.map_cons, List.nodup_cons] at hnd
    have hanotin : ¬a ∈ (closeSweep i rest).1 := fun ha =>
      hnd.1 (closeSweep_records_mem i rest a ha)
    rw [closeSweep_cons]
    by_cases hm : i ∈ f
    · by_cases hc : (f.erase i).card < 1
      · rw [if_pos hm, if_pos hc]
        show restoreFreedoms i [a] ((a, f.erase i) :: rest) = some ((a, f) :: rest)
        simp only [restoreFreedoms, alGet?_cons_self, Option.some_bind]
        rw [alSet_cons_self, Finset.insert_erase hm]
      · rw [if_pos hm, if_neg hc]
        show restoreFreedoms i (a :: (closeSweep i rest).1)
            ((a, f.erase i) :: (closeSweep i rest).2.1) = some ((a, f) :: rest)
        simp only [restoreFreedoms, alGet?_cons_self, Option.some_bind]
        rw [alSet_cons_self, Finset.insert_erase hm,
          restoreFreedoms_cons_commute _ _ _ _ _ hanotin, ih hnd.2]
        rfl
    · rw [if_neg hm]
      show restoreFreedoms i (closeSweep i rest).1 ((a, f) :: (closeSweep i rest).2.1) =
        some ((a, f) :: rest)
      rw [restoreFreedoms_cons_commute _ _ _ _ _ hanotin, ih hnd.2]
      rfl

theorem restoreFreedoms_keys (i : Nat) (cs : List Nat) (fr fr' : List (Nat × Finset Nat))
    (h : restoreFreedoms i cs fr = some fr') : alKeys fr' = alKeys fr := by
  induction cs generalizing fr with
  | nil => simp only [restoreFreedoms] at h; cases h; rfl
  | cons c cs' ih =>
    simp only [restoreFreedoms] at h
    cases hg : alGet? fr c with
    | none => rw [hg] at h; simp at h
    | some fv =>
      rw [hg] at h
      simp only [Option.some_bind] at h
      rw [ih _ h, alKeys_alSet_of_mem _ (mem_alKeys_of_isSome (by simp [hg]))]

/-! ## Roots found by the neighbor scan -/

theorem findRoot_spec (parents : List Int) (fuel : Nat) (j : Int) (r : Nat)
    (h : findRoot parents fuel j = some r) :
    r < N ∧ parents.getD r (-1) = (r : Int) := by
  induction fuel generalizing j with
  | zero => simp [findRoot] at h
  | succ fuel ih =>
    simp only [findRoot] at h
    by_cases h1 : j < 0
    · rw [if_pos h1] at h; simp at h
    · rw [if_neg h1] at h
      by_cases h2 : (N : Int) ≤ j
      · rw [if_pos h2] at h; simp at h
      · rw [if_neg h2] at h
        by_cases h3 : parents.getD j.toNat (-1) = j
        · rw [if_pos h3] at h
          cases h
          refine ⟨by omega, ?_⟩
          rw [Int.toNat_of_nonneg (show (0 : Int) ≤ j by omega)]
          exact h3
        · rw [if_neg h3] at h
          exact ih _ h

theorem collectLoop_spec (s : LPState) (i : Nat) (ds : List Int) (acc nearby : List Nat)
    (hacc : acc.Nodup ∧ ∀ r ∈ acc, r < N ∧ s.parents.getD r (-1) = (r : Int))
    (h : collectLoop s i ds acc = some nearby) :
    nearby.Nodup ∧ ∀ r ∈ nearby, r < N ∧ s.parents.getD r (-1) = (r : Int) := by
  induction ds generalizing acc with
  | nil => simp only [collectLoop] at h; cases h; exact hacc
  | cons d ds ih =>
    simp only [collectLoop] at h
    split at h
    · exact ih _ hacc h
    · cases hf : findRoot s.parents (N + 1) ((i : Int) + d) with
      | none => rw [hf] at h; simp at h
      | some r =>
        rw [hf] at h
        simp only [Option.some_bind] at h
        by_cases hr : r ∈ acc
        · rw [if_pos hr] at h
          exact ih _ hacc h
        · rw [if_neg hr] at h
          refine ih _ ⟨?_, ?_⟩ h
          · refine List.Nodup.append hacc.1 (List.nodup_singleton r) ?_
            intro a ha har
            rw [List.mem_singleton] at har
            exact hr (har ▸ ha)
          · intro x hx
            rcases List.mem_append.mp hx with hx | hx
            · exact hacc.2 x hx
            · simp only [List.mem_singleton] at hx
              exact hx ▸ findRoot_spec _ _ _ _ hf

theorem collectRoots_spec (s : LPState) (i : Nat) (nearby : List Nat)
    (h : collectRoots s i = some nearby) :
    nearby.Nodup ∧ ∀ r ∈ nearby, r < N ∧ s.parents.getD r (-1) = (r : Int) :=
  collectLoop_spec s i neighbors [] nearby ⟨List.nodup_nil, by simp⟩ h

/-! ## Finset erase and insert folds -/

theorem mem_foldl_erase (ks : List Nat) (C : Finset Nat) (m : Nat) :
    m ∈ ks.foldl (fun c k => c.erase k) C ↔ m ∈ C ∧ ¬m ∈ ks := by
  induction ks generalizing C with
  | nil => simp
  | cons k ks ih =>
    simp only [List.foldl_cons, ih, Finset.mem_erase, List.mem_cons, not_or]
    tauto

theorem mem_foldl_insert (ks : List Nat) (D : Finset Nat) (m : Nat) :
    m ∈ ks.foldl (fun c k => insert k c) D ↔ m ∈ D ∨ m ∈ ks := by
  induction ks generalizing D with
  | nil => simp
  | cons k ks ih =>
    simp only [List.foldl_cons, ih, Finset.mem_insert, List.mem_cons]
    tauto

theorem foldl_insert_foldl_erase (ks : List Nat) (C : Finset Nat)
    (hsub : ∀ k ∈ ks, k ∈ C) :
    ks.foldl (fun c k => insert k c) (ks.foldl (fun c k => c.erase k) C) = C := by
  ext m
  rw [mem_foldl_insert, mem_foldl_erase]
  constructor
  · rintro (⟨hm, _⟩ | hm)
    · exact hm
    · exact hsub m hm
  · intro hm
    by_cases hk : m ∈ ks
    · exact Or.inr hk
    · exact Or.inl ⟨hm, hk⟩

/-! ## Closed forms of the absorb and split loops -/

theorem absorbLoop_spec (j : Nat) (ks : List Nat) (t u : LPState)
    (hj : ¬j ∈ ks) (hlen : j < t.comp_size.length)
    (hjk : (alGet? t.freedoms j).isSome = true)
    (h : absorbLoop j ks t = some u) :
    u.pattern = t.pattern ∧ u.live_count = t.live_count ∧
    u.merge_undo_list = t.merge_undo_list ∧ u.close_undo_list = t.close_undo_list ∧
    u.output = t.output ∧
    u.parents = ks.foldl (fun l k => l.set k (j : Int)) t.parents ∧
    u.comp_size = t.comp_size.set j
      (t.comp_size.getD j 0 + (ks.map (fun k => t.comp_size.getD k 0)).sum) ∧
    (∃ V, u.freedoms = alSet t.freedoms j V) ∧
    u.components = ks.foldl (fun c k => c.erase k) t.components := by
  induction ks generalizing t with
  | nil =>
    simp only [absorbLoop] at h
    cases h
    refine ⟨rfl, rfl, rfl, rfl, rfl, rfl, ?_, ?_, rfl⟩
    · simp only [List.map_nil, List.sum_nil, Int.add_zero]
      exact (set_getD_self hlen rfl).symm
    · obtain ⟨fj, hfj⟩ := Option.isSome_iff_exists.mp hjk
      exact ⟨fj, (alSet_self hfj).symm⟩
  | cons k ks ih =>
    simp only [List.mem_cons, not_or] at hj
    simp only [absorbLoop] at h
    cases hfk : alGet? t.freedoms k with
    | none => rw [hfk] at h; simp at h
    | some fk =>
      rw [hfk] at h
      obtain ⟨fj, hfj⟩ := Option.isSome_iff_exists.mp hjk
      rw [hfj] at h
      simp only [Option.some_bind] at h
      set t' : LPState :=
        { t with
          parents := t.parents.set k (j : Int)
          comp_size := t.comp_size.set j (t.comp_size.getD j 0 + t.comp_size.getD k 0)
          freedoms := alSet t.freedoms j (fj ∪ fk)
          components := t.components.erase k } with ht'
      have hlen' : j < t'.comp_size.length := by
        simpa [ht', List.length_set] using hlen
      have hjk' : (alGet? t'.freedoms j).isSome = true := by
        simp [ht', alGet?_alSet_self]
      obtain ⟨hp, hl, hm, hc, ho, hpar, hsz, ⟨V, hfr⟩, hcomp⟩ := ih t' hj.2 hlen' hjk' h
      refine ⟨hp, hl, hm, hc, ho, ?_, ?_, ?_, ?_⟩
      · rw [hpar]; rfl
      · rw [hsz]
        simp only [ht']
        rw [List.set_set]
        congr 1
        · rw [getD_set_self _ _ _ _ hlen, List.map_cons, List.sum_cons]
          have : ∀ x ∈ ks, (t.comp_size.set j (t.comp_size.getD j 0 + t.comp_size.getD k 0)).getD x 0
              = t.comp_size.getD x 0 := by
            intro x hx
            refine getD_set_ne _ _ _ (fun hh => hj.2 ?_)
            rw [hh]
            exact hx
          rw [List.map_congr_left this]
          ring
      · rw [hfr]
        simp only [ht']
        exact ⟨V, alSet_alSet_same _ _ _ _⟩
      · rw [hcomp]; rfl

theorem splitLoop_spec (last : Nat) (ks : List Nat) (t : LPState)
    (hl : ¬last ∈ ks) (hnd : ks.Nodup) (hlen : last < t.comp_size.length)
    (hcond : ∀ k ∈ ks, k < N ∧ t.parents.getD k (-1) = (last : Int)) :
    splitLoop last ks t = some
      { t with
        parents := ks.foldl (fun l k => l.set k (k : Int)) t.parents
        comp_size := t.comp_size.set last
          (t.comp_size.getD last 0 - (ks.map (fun k => t.comp_size.getD k 0)).sum)
        components := ks.foldl (fun c k => insert k c) t.components } := by
  induction ks generalizing t with
  | nil =>
    simp only [splitLoop, List.foldl_nil, List.map_nil, List.sum_nil, Int.sub_zero]
    congr 1
    cases t with
    | mk pat lc comps par sz mu cu fr out =>
      simp only
      congr 1
      exact (set_getD_self hlen rfl).symm
  | cons k ks ih =>
    simp only [List.mem_cons, not_or] at hl
    simp only [List.nodup_cons] at hnd
    have hck := hcond k (List.mem_cons_self k ks)
    simp only [splitLoop, if_pos hck]
    set t' : LPState :=
      { t with
        parents := t.parents.set k (k : Int)
        comp_size := t.comp_size.set last (t.comp_size.getD last 0 - t.comp_size.getD k 0)
        components := insert k t.components } with ht'
    have hlen' : last < t'.comp_size.length := by
      simpa [ht', List.length_set] using hlen
    have hcond' : ∀ x ∈ ks, x < N ∧ t'.parents.getD x (-1) = (last : Int) := by
      intro x hx
      refine ⟨(hcond x (List.mem_cons_of_mem k hx)).1, ?_⟩
      simp only [ht']
      rw [getD_set_ne _ _ _ (fun hh => hnd.1 (by rw [hh]; exact hx))]
      exact (hcond x (List.mem_cons_of_mem k hx)).2
    rw [ih t' hl.2 hnd.2 hlen' hcond']
    congr 1
    simp only [ht']
    cases t with
    | mk pat lc comps par sz mu cu fr out =>
      simp only
      congr 1
      rw [List.set_set]
      congr 1
      rw [getD_set_self _ _ _ _ hlen, List.map_cons, List.sum_cons]
      have : ∀ x ∈ ks, (sz.set last (sz.getD last 0 - sz.getD k 0)).getD x 0
          = sz.getD x 0 := by
        intro x hx
        refine getD_set_ne _ _ _ (fun hh => hl.2 ?_)
        rw [hh]
        exact hx
      rw [List.map_congr_left this]
      ring

/-! ## Assorted helpers -/

theorem eq_of_getD {α : Type} (d : α) : ∀ (l1 l2 : List α), l1.length = l2.length →
    (∀ m, l1.getD m d = l2.getD m d) → l1 = l2 := by
  intro l1
  induction l1 with
  | nil =>
    intro l2 hlen _
    cases l2 with
    | nil => rfl
    | cons b bs => simp at hlen
  | cons a as ih =>
    intro l2 hlen h
    cases l2 with
    | nil => simp at hlen
    | cons b bs =>
      have h0 := h 0
      simp only [List.getD_cons_zero] at h0
      have : as = bs := ih bs (by simpa using hlen) (fun m => by simpa using h (m + 1))
      rw [h0, this]

theorem concat_dropLast_getLast {α : Type} {l : List α} {a : α}
    (h : l.getLast? = some a) : l.dropLast ++ [a] = l := by
  induction l with
  | nil => simp at h
  | cons x xs ih =>
    cases xs with
    | nil =>
      simp only [List.getLast?_singleton, Option.some.injEq] at h
      simp [h]
    | cons y ys =>
      rw [List.getLast?_cons_cons] at h
      have := ih h
      rw [List.dropLast_cons₂, List.cons_append, this]

theorem not_mem_dropLast_of_nodup {α : Type} {xs : List α} {a : α}
    (hnd : (xs ++ [a]).Nodup) : ¬a ∈ xs := by
  intro ha
  rw [List.nodup_append] at hnd
  exact hnd.2.2 ha (List.mem_singleton_self a)

/-! ## State-level cancellation: close then undo -/

theorem undo_close_of_close (s u : LPState) (i : Nat)
    (hfr : u.freedoms = (closeSweep i s.freedoms).2.1)
    (hcl : u.close_undo_list = alSet s.close_undo_list i (closeSweep i s.freedoms).1)
    (hnd : (alKeys s.freedoms).Nodup) (hfresh : ¬i ∈ alKeys s.close_undo_list) :
    undo_component_close u i =
      some { u with freedoms := s.freedoms, close_undo_list := s.close_undo_list } := by
  unfold undo_component_close
  rw [hcl, hfr, alGet?_alSet_self, alPop_alSet_fresh _ hfresh]
  simp only [Option.getD_some]
  rw [closeSweep_restore i s.freedoms hnd]
  rfl

/-! ## The two branches of undo_component_merge, in closed form -/

theorem undo_merge_singleton_case (u : LPState) (i : Nat) (hiN : i < N)
    (hgi : u.parents.getD i (-1) = (i : Int))
    (hmu : alGet? u.merge_undo_list i = none)
    (hfs : (alGet? u.freedoms i).isSome = true)
    (hcomp : i ∈ u.components) :
    undo_component_merge u i = some { u with
      components := u.components.erase i
      freedoms := alPop u.freedoms i
      parents := u.parents.set i (-1)
      comp_size := u.comp_size.set i 0 } := by
  unfold undo_component_merge
  rw [hgi, hmu]
  rw [if_neg (by
    push_neg
    intro _
    refine ⟨by exact_mod_cast hiN, ?_⟩
    rw [Int.toNat_natCast]
    exact hgi)]
  rw [if_pos (Int.natCast_nonneg i)]
  rw [if_neg (not_not_intro ⟨rfl, hfs, hcomp⟩)]

theorem undo_merge_record_case (u : LPState) (i last : Nat) (nearby : List Nat)
    (old_fr : Finset Nat) (t2 : LPState) (hlastN : last < N)
    (hgi : u.parents.getD i (-1) = (last : Int))
    (hglast : u.parents.getD last (-1) = (last : Int))
    (hmu : alGet? u.merge_undo_list i = some (nearby, old_fr))
    (hlast : nearby.getLast? = some last)
    (hsplit : splitLoop last nearby.dropLast
      { u with
        merge_undo_list := alPop u.merge_undo_list i
        comp_size := u.comp_size.set last (u.comp_size.getD last 0 - 1) } = some t2) :
    undo_component_merge u i = some { t2 with
      freedoms := alSet t2.freedoms last old_fr
      parents := t2.parents.set i (-1)
      comp_size := t2.comp_size.set i 0 } := by
  unfold undo_component_merge
  rw [hgi, hmu]
  rw [if_neg (by
    push_neg
    intro _
    refine ⟨by exact_mod_cast hlastN, ?_⟩
    rw [Int.toNat_natCast]
    exact hglast)]
  simp only [hlast, Option.some_bind]
  rw [if_neg (by simp [hlastN])]
  rw [hsplit]
  rfl

/-! ## State-level cancellation: merge then undo -/

theorem undo_merge_of_merge (s t : LPState) (i : Nat) (P : List (Option Bool)) (L : Int)
    (hplen : s.parents.length = N) (hslen : s.comp_size.length = N)
    (hiN : i < N)
    (hpi : s.parents.getD i (-1) = -1)
    (hsi : s.comp_size.getD i 0 = 0)
    (hif : ¬i ∈ alKeys s.freedoms)
    (him : ¬i ∈ alKeys s.merge_undo_list)
    (hic : ¬i ∈ s.components)
    (hroots : ∀ k, k < N → s.parents.getD k (-1) = (k : Int) → k ∈ s.components)
    (hm : merge_components s i = some t) :
    undo_component_merge { t with pattern := P, live_count := L } i =
      some { t with
        pattern := P
        live_count := L
        parents := s.parents
        comp_size := s.comp_size
        components := s.components
        freedoms := s.freedoms
        merge_undo_list := s.merge_undo_list } := by
  unfold merge_components at hm
  cases hcr : collectRoots s i with
  | none => rw [hcr] at hm; simp at hm
  | some nearby =>
    rw [hcr] at hm
    simp only [Option.some_bind] at hm
    obtain ⟨hnd_nb, hroots_nb⟩ := collectRoots_spec s i nearby hcr
    have hinot : ¬i ∈ nearby := by
      intro hmem
      have h2 := (hroots_nb i hmem).2
      rw [hpi] at h2
      omega
    cases nearby with
    | nil =>
      cases hm
      have hstep := undo_merge_singleton_case
        { s with
          pattern := P
          live_count := L
          parents := s.parents.set i (i : Int)
          comp_size := s.comp_size.set i 1
          freedoms := alSet s.freedoms i (newFreedoms i)
          components := insert i s.components }
        i hiN
        (getD_set_self _ _ _ _ (by omega))
        (alGet?_not_mem him)
        (by rw [alGet?_alSet_self]; rfl)
        (Finset.mem_insert_self i s.components)
      refine hstep.trans ?_
      have hcomps : (insert i s.components).erase i = s.components :=
        Finset.erase_insert hic
      have hfr : alPop (alSet s.freedoms i (newFreedoms i)) i = s.freedoms :=
        alPop_alSet_fresh _ hif
      have hpar : (s.parents.set i (i : Int)).set i (-1) = s.parents := by
        rw [List.set_set]
        exact set_getD_self (by omega) hpi
      have hsz : (s.comp_size.set i 1).set i 0 = s.comp_size := by
        rw [List.set_set]
        exact set_getD_self (by omega) hsi
      simp only [hcomps, hfr, hpar, hsz]
    | cons n0 rest =>
      simp only at hm
      set nb : List Nat := n0 :: rest with hnb
      set sorted : List Nat := nb.insertionSort
        (fun a b => s.comp_size.getD a 0 ≤ s.comp_size.getD b 0) with hsorted_def
      have hperm : sorted.Perm nb := List.perm_insertionSort _ nb
      have hsne : sorted ≠ [] := by
        intro h
        have := hperm.length_eq
        rw [h, hnb] at this
        simp at this
      obtain ⟨last, hlast⟩ : ∃ a, sorted.getLast? = some a := by
        cases hl : sorted.getLast? with
        | none => exact absurd (List.getLast?_eq_none_iff.mp hl) hsne
        | some a => exact ⟨a, rfl⟩
      have hjdef : sorted.getLast?.getD 0 = last := by rw [hlast]; rfl
      rw [hjdef] at hm
      have hconcat : sorted.dropLast ++ [last] = sorted := concat_dropLast_getLast hlast
      have hsnd : sorted.Nodup := hperm.nodup_iff.mpr hnd_nb
      have hlast_mem : last ∈ nb := hperm.mem_iff.mp
        (by rw [← hconcat]; exact List.mem_append_right _ (List.mem_singleton_self last))
      obtain ⟨hlastN, hlastroot⟩ := hroots_nb last hlast_mem
      have hlast_comp : last ∈ s.components := hroots last hlastN hlastroot
      have happnd : (sorted.dropLast ++ [last]).Nodup := by rw [hconcat]; exact hsnd
      have hldrop : ¬last ∈ sorted.dropLast := not_mem_dropLast_of_nodup happnd
      have hksnd : sorted.dropLast.Nodup := happnd.of_append_left
      have hks_nb : ∀ k ∈ sorted.dropLast, k ∈ nb := fun k hk =>
        hperm.mem_iff.mp (by rw [← hconcat]; exact List.mem_append_left _ hk)
      have hks_spec : ∀ k ∈ sorted.dropLast, k < N ∧ s.parents.getD k (-1) = (k : Int) :=
        fun k hk => hroots_nb k (hks_nb k hk)
      have hks_comp : ∀ k ∈ sorted.dropLast, k ∈ s.components := fun k hk =>
        hroots k (hks_spec k hk).1 (hks_spec k hk).2
      have hine_last : ¬i = last := fun hh => hinot (hh ▸ hlast_mem)
      have hine_ks : ¬i ∈ sorted.dropLast := fun hk => hinot (hks_nb i hk)
      cases hof : alGet? s.freedoms last with
      | none => rw [hof] at hm; simp at hm
      | some old_fr =>
        rw [hof] at hm
        simp only [Option.some_bind] at hm
        cases hab : absorbLoop last sorted.dropLast s with
        | none => rw [hab] at hm; simp at hm
        | some t1 =>
          rw [hab] at hm
          simp only [Option.some_bind] at hm
          obtain ⟨hp1, hl1, hmu1, hcu1, ho1, hpar1, hsz1, ⟨V, hfr1⟩, hcomp1⟩ :=
            absorbLoop_spec last sorted.dropLast s t1 hldrop (by omega) (by rw [hof]; rfl) hab
          cases hfj : alGet? t1.freedoms last with
          | none => rw [hfj] at hm; simp at hm
          | some fj1 =>
            rw [hfj] at hm
            simp only [Option.some_bind] at hm
            by_cases hifj : i ∈ fj1
            · rw [if_pos hifj] at hm
              cases hm
              have hplen1 : t1.parents.length = N := by
                rw [hpar1, length_foldl_set, hplen]
              have hslen1 : t1.comp_size.length = N := by
                rw [hsz1, List.length_set, hslen]
              have himu1 : ¬i ∈ alKeys t1.merge_undo_list := by rw [hmu1]; exact him
              have hlenA : (t1.comp_size.set i 1).length = N := by
                rw [List.length_set, hslen1]
              have ht1last : t1.comp_size.getD last 0 =
                  s.comp_size.getD last 0 +
                    (sorted.dropLast.map (fun k => s.comp_size.getD k 0)).sum := by
                rw [hsz1]
                exact getD_set_self _ _ _ _ (by omega)
              have hAlast : (t1.comp_size.set i 1).getD last 0 = t1.comp_size.getD last 0 :=
                getD_set_ne _ _ _ hine_last
              have hT0cs :
                  ((t1.comp_size.set i 1).set last ((t1.comp_size.set i 1).getD last 0 + 1)).set
                      last
                      ((((t1.comp_size.set i 1).set last
                        ((t1.comp_size.set i 1).getD last 0 + 1)).getD last 0) - 1) =
                    t1.comp_size.set i 1 := by
                rw [getD_set_self _ _ _ _ (by rw [List.length_set]; omega), List.set_set]
                have harith : (t1.comp_size.set i 1).getD last 0 + 1 - 1 =
                    (t1.comp_size.set i 1).getD last 0 := by ring
                rw [harith]
                exact set_getD_self (by omega) rfl
              have hsplit := splitLoop_spec last sorted.dropLast
                { t1 with
                  pattern := P
                  live_count := L
                  parents := t1.parents.set i (last : Int)
                  comp_size := ((t1.comp_size.set i 1).set last
                      ((t1.comp_size.set i 1).getD last 0 + 1)).set last
                      ((((t1.comp_size.set i 1).set last
                        ((t1.comp_size.set i 1).getD last 0 + 1)).getD last 0) - 1)
                  freedoms := alSet t1.freedoms last (fj1.erase i ∪ newFreedoms i)
                  merge_undo_list := alPop (alSet t1.merge_undo_list i (sorted, old_fr)) i }
                hldrop hksnd
                (by simp only; rw [hT0cs]; omega)
                (by
                  intro k hk
                  refine ⟨(hks_spec k hk).1, ?_⟩
                  simp only
                  rw [getD_set_ne _ _ _ (fun hh => hine_ks (by rw [hh]; exact hk)), hpar1,
                    foldl_set_getD,
                    if_pos ⟨hk, by rw [hplen]; exact (hks_spec k hk).1⟩])
              have hstep := undo_merge_record_case
                { t1 with
                  pattern := P
                  live_count := L
                  parents := t1.parents.set i (last : Int)
                  comp_size := (t1.comp_size.set i 1).set last
                    ((t1.comp_size.set i 1).getD last 0 + 1)
                  freedoms := alSet t1.freedoms last (fj1.erase i ∪ newFreedoms i)
                  merge_undo_list := alSet t1.merge_undo_list i (sorted, old_fr) }
                i last sorted old_fr _ hlastN
                (by simp only; exact getD_set_self _ _ _ _ (by omega))
                (by
                  simp only
                  rw [getD_set_ne _ _ _ hine_last, hpar1, foldl_set_getD,
                    if_neg (fun hh => hldrop hh.1)]
                  exact hlastroot)
                (by simp only; exact alGet?_alSet_self _ _ _)
                hlast hsplit
              refine hstep.trans (congrArg some ?_)
              have hmureq : alPop (alSet t1.merge_undo_list i (sorted, old_fr)) i =
                  s.merge_undo_list := by
                rw [alPop_alSet_fresh _ himu1, hmu1]
              have hfreq : alSet (alSet t1.freedoms last (fj1.erase i ∪ newFreedoms i))
                  last old_fr = s.freedoms := by
                rw [alSet_alSet_same, hfr1, alSet_alSet_same]
                exact alSet_self hof
              have hcompeq : sorted.dropLast.foldl (fun c k => insert k c) t1.components =
                  s.components := by
                rw [hcomp1]
                exact foldl_insert_foldl_erase _ _ hks_comp
              have hsum2 : (sorted.dropLast.map (fun k => (t1.comp_size.set i 1).getD k 0)).sum =
                  (sorted.dropLast.map (fun k => s.comp_size.getD k 0)).sum := by
                refine congrArg List.sum (List.map_congr_left ?_)
                intro k hk
                rw [getD_set_ne _ _ _ (fun hh => hine_ks (by rw [hh]; exact hk)), hsz1,
                  getD_set_ne _ _ _ (fun hh => hldrop (by rw [hh]; exact hk))]
              have hred : (s.comp_size.set i 1).set last (s.comp_size.getD last 0) =
                  s.comp_size.set i 1 :=
                set_getD_self (by rw [List.length_set]; omega) (getD_set_ne _ _ _ hine_last)
              have harith2 : s.comp_size.getD last 0 +
                  (sorted.dropLast.map (fun k => s.comp_size.getD k 0)).sum -
                  (sorted.dropLast.map (fun k => s.comp_size.getD k 0)).sum =
                  s.comp_size.getD last 0 := by ring
              have hcseq : ((t1.comp_size.set i 1).set last
                    ((t1.comp_size.set i 1).getD last 0 -
                      (sorted.dropLast.map (fun k => (t1.comp_size.set i 1).getD k 0)).sum)).set
                    i 0 = s.comp_size := by
                rw [hsum2, hAlast, ht1last, harith2, hsz1,
                  List.set_comm _ _ _ (fun hh => hine_last hh.symm), List.set_set,
                  List.set_comm _ _ _ hine_last, List.set_set,
                  set_getD_self (show last < s.comp_size.length by omega) rfl]
                exact set_getD_self (by omega) hsi
              have hpareq : ((sorted.dropLast.foldl (fun l k => l.set k (k : Int))
                    (t1.parents.set i (last : Int)))).set i (-1) = s.parents := by
                refine eq_of_getD (-1) _ _ ?_ ?_
                · rw [List.length_set, length_foldl_set, List.length_set, hplen1, hplen]
                · intro m
                  by_cases hmi : m = i
                  · subst hmi
                    rw [getD_set_self _ _ _ _
                      (by rw [length_foldl_set, List.length_set, hplen1]; omega)]
                    exact hpi.symm
                  · rw [getD_set_ne _ _ _ (fun hh => hmi hh.symm), foldl_set_getD]
                    by_cases hmks : m ∈ sorted.dropLast ∧ m < (t1.parents.set i (last : Int)).length
                    · rw [if_pos hmks]
                      exact ((hks_spec m hmks.1).2).symm
                    · rw [if_neg hmks]
                      have hlen_eq : s.parents.length =
                          (t1.parents.set i (last : Int)).length := by
                        rw [List.length_set, hplen1, hplen]
                      rw [getD_set_ne _ _ _ (fun hh => hmi hh.symm), hpar1, foldl_set_getD]
                      rw [if_neg (fun hh => hmks ⟨hh.1, hlen_eq ▸ hh.2⟩)]
              simp only [LPState.mk.injEq]
              refine ⟨trivial, trivial, hcompeq, hpareq, ?_, hmureq, trivial, hfreq, trivial⟩
              rw [hT0cs]
              exact hcseq
            · rw [if_neg hifj] at hm
              simp at hm

/-! ## Association-list membership helpers -/

theorem alGet?_mem {α : Type} {l : List (Nat × α)} {k : Nat} {v : α}
    (h : alGet? l k = some v) : (k, v) ∈ l := by
  induction l with
  | nil => simp [alGet?] at h
  | cons p rest ih =>
    obtain ⟨a, b⟩ := p
    by_cases hk : a = k
    · subst hk
      have hb : b = v := by simpa [alGet?] using h
      subst hb
      exact List.mem_cons_self _ _
    · simp only [alGet?, if_neg hk] at h
      exact List.mem_cons_of_mem _ (ih h)

theorem alGet?_none_not_mem {α : Type} {l : List (Nat × α)} {k : Nat}
    (h : alGet? l k = none) : ¬k ∈ alKeys l := by
  intro hm
  have hs := alGet?_isSome_of_mem hm
  rw [h] at hs
  simp at hs

theorem mem_alKeys_alSet {α : Type} {l : List (Nat × α)} {j k : Nat} {v : α}
    (h : k ∈ alKeys (alSet l j v)) : k ∈ alKeys l ∨ k = j := by
  by_cases hj : j ∈ alKeys l
  · rw [alKeys_alSet_of_mem v hj] at h
    exact Or.inl h
  · rw [alKeys_alSet_of_not_mem v hj] at h
    rcases List.mem_append.mp h with h | h
    · exact Or.inl h
    · simp only [List.mem_singleton] at h
      exact Or.inr h

theorem mem_alPop {α : Type} {l : List (Nat × α)} {i : Nat} {p : Nat × α}
    (h : p ∈ alPop l i) : p ∈ l := by
  induction l with
  | nil => simp [alPop] at h
  | cons q rest ih =>
    obtain ⟨a, b⟩ := q
    simp only [alPop] at h
    by_cases hk : a = i
    · rw [if_pos hk] at h
      exact List.mem_cons_of_mem _ h
    · rw [if_neg hk] at h
      rcases List.mem_cons.mp h with h | h
      · exact h ▸ List.mem_cons_self _ _
      · exact List.mem_cons_of_mem _ (ih h)

theorem not_mem_alKeys_alPop {α : Type} {l : List (Nat × α)} {i : Nat}
    (hnd : (alKeys l).Nodup) : ¬i ∈ alKeys (alPop l i) := by
  induction l with
  | nil => simp [alPop, alKeys]
  | cons q rest ih =>
    obtain ⟨a, b⟩ := q
    simp only [alKeys, List.map_cons, List.nodup_cons] at hnd
    simp only [alPop]
    by_cases hk : a = i
    · rw [if_pos hk]
      subst hk
      exact fun hm => hnd.1 hm
    · rw [if_neg hk]
      simp only [alKeys, List.map_cons, List.mem_cons, not_or]
      exact ⟨fun hh => hk hh.symm, ih hnd.2⟩

theorem mem_alKeys_alPop {α : Type} {l : List (Nat × α)} {i k : Nat}
    (h : k ∈ alKeys (alPop l i)) : k ∈ alKeys l :=
  (alKeys_alPop_sublist l i).subset h

theorem mem_alPop_ne {α : Type} {l : List (Nat × α)} {i : Nat} {p : Nat × α}
    (hnd : (alKeys l).Nodup) (h : p ∈ alPop l i) : ¬p.1 = i := by
  intro he
  have hm : p.1 ∈ alKeys (alPop l i) := List.mem_map_of_mem Prod.fst h
  rw [he] at hm
  exact not_mem_alKeys_alPop hnd hm

theorem mem_alSet {α : Type} {l : List (Nat × α)} {j : Nat} {v : α} {p : Nat × α}
    (h : p ∈ alSet l j v) : p ∈ l ∨ p = (j, v) := by
  induction l with
  | nil =>
    simp only [alSet, List.mem_singleton] at h
    exact Or.inr h
  | cons q rest ih =>
    obtain ⟨a, b⟩ := q
    simp only [alSet] at h
    by_cases hk : a = j
    · rw [if_pos hk] at h
      rcases List.mem_cons.mp h with h | h
      · subst hk
        exact Or.inr h
      · exact Or.inl (List.mem_cons_of_mem _ h)
    · rw [if_neg hk] at h
      rcases List.mem_cons.mp h with h | h
      · exact Or.inl (h ▸ List.mem_cons_self _ _)
      · rcases ih h with h | h
        · exact Or.inl (List.mem_cons_of_mem _ h)
        · exact Or.inr h

/-! ## Inversion of the split loop -/

theorem splitLoop_inv (last : Nat) (ks : List Nat) (t t2 : LPState)
    (h : splitLoop last ks t = some t2) :
    t2.pattern = t.pattern ∧ t2.live_count = t.live_count ∧
    t2.merge_undo_list = t.merge_undo_list ∧
    t2.close_undo_list = t.close_undo_list ∧
    t2.freedoms = t.freedoms ∧ t2.output = t.output ∧
    t2.parents.length = t.parents.length ∧
    t2.comp_size.length = t.comp_size.length ∧
    (∀ m, ¬m ∈ ks → t2.parents.getD m (-1) = t.parents.getD m (-1)) ∧
    (∀ m ∈ ks, m < N ∧ ¬t.parents.getD m (-1) = -1 ∧
      (m < t.parents.length → t2.parents.getD m (-1) = (m : Int))) ∧
    (∀ m, ¬m = last → t2.comp_size.getD m 0 = t.comp_size.getD m 0) ∧
    (∀ m, m ∈ t2.components ↔ m ∈ t.components ∨ m ∈ ks) := by
  induction ks generalizing t with
  | nil =>
    simp only [splitLoop] at h
    cases h
    exact ⟨rfl, rfl, rfl, rfl, rfl, rfl, rfl, rfl, fun m _ => rfl, by simp,
      fun m _ => rfl, by simp⟩
  | cons k ks ih =>
    simp only [splitLoop] at h
    by_cases hc : k < N ∧ t.parents.getD k (-1) = (last : Int)
    · rw [if_pos hc] at h
      set t1 : LPState := { t with
        parents := t.parents.set k (k : Int)
        comp_size := t.comp_size.set last (t.comp_size.getD last 0 - t.comp_size.getD k 0)
        components := insert k t.components } with ht1
      obtain ⟨hp, hl, hmu, hcu, hfr, ho, hplen, hslen, hpout, hpin, hsz, hcm⟩ := ih t1 h
      refine ⟨hp, hl, hmu, hcu, hfr, ho, ?_, ?_, ?_, ?_, ?_, ?_⟩
      · rw [hplen]
        simp only [ht1, List.length_set]
      · rw [hslen]
        simp only [ht1, List.length_set]
      · intro m hm
        simp only [List.mem_cons, not_or] at hm
        rw [hpout m hm.2]
        simp only [ht1]
        exact getD_set_ne _ _ _ (fun hh => hm.1 hh.symm)
      · intro m hm
        rcases List.mem_cons.mp hm with hm | hm
        · subst hm
          refine ⟨hc.1, ?_, ?_⟩
          · rw [hc.2]
            intro hh
            have := Int.natCast_nonneg last
            omega
          · intro hmlen
            by_cases hmks : m ∈ ks
            · refine (hpin m hmks).2.2 ?_
              simp only [ht1, List.length_set]
              exact hmlen
            · rw [hpout m hmks]
              simp only [ht1]
              exact getD_set_self _ _ _ _ hmlen
        · obtain ⟨h1, h2, h3⟩ := hpin m hm
          refine ⟨h1, ?_, ?_⟩
          · by_cases hmk : m = k
            · subst hmk
              rw [hc.2]
              intro hh
              have := Int.natCast_nonneg last
              omega
            · intro hh
              refine h2 ?_
              simp only [ht1]
              rw [getD_set_ne _ _ _ (fun hp2 => hmk hp2.symm)]
              exact hh
          · intro hmlen
            refine h3 ?_
            simp only [ht1, List.length_set]
            exact hmlen
      · intro m hml
        rw [hsz m hml]
        simp only [ht1]
        exact getD_set_ne _ _ _ (fun hh => hml hh.symm)
      · intro m
        rw [hcm m]
        simp only [ht1, Finset.mem_insert, List.mem_cons]
        tauto
    · rw [if_neg hc] at h
      simp at h

/-! ## Reduction of set_pattern, one transition at a time -/

theorem set_pattern_unfold (s : LPState) (i : Nat) (st : Option Bool) (hiN : i < N)
    (hne : ¬st = s.pattern.getD i none) :
    set_pattern s (i : Int) st =
      (set_pattern_pre s i st).bind (fun s5 =>
        if st = some true then
          (merge_components s5 i).bind (fun s6 =>
            if max_n < s6.live_count + (s6.components.card : Int) - 1 then
              some (false, s6)
            else
              (minimum_bridge_length s6).bind (fun b =>
                if max_n < s6.live_count + b then some (false, s6)
                else some (set_pattern_tail s6 i st, s6)))
        else if st = some false then
          let r := close_components s5 i
          if r.1 then some (set_pattern_tail r.2 i st, r.2)
          else
            let s7 :=
              if r.2.components.card = 1 ∧ final_rule_check r.2 (i : Int) = true then
                print_pattern r.2
              else r.2
            some (false, s7)
        else some (set_pattern_tail s5 i st, s5)) := by
  unfold set_pattern
  rw [if_neg (by
    push_neg
    exact ⟨Int.natCast_nonneg i, by exact_mod_cast hiN⟩)]
  simp only [Int.toNat_natCast]
  rw [if_neg hne]

theorem set_pattern_pre_none_false (s : LPState) (i : Nat)
    (h0 : s.pattern.getD i none = none) :
    set_pattern_pre s i (some false) =
      some { s with pattern := s.pattern.set i (some false) } := by
  unfold set_pattern_pre
  rw [h0]
  simp

theorem set_pattern_pre_false_true (s : LPState) (i : Nat)
    (h0 : s.pattern.getD i none = some false) :
    set_pattern_pre s i (some true) =
      undo_component_close
        { s with pattern := s.pattern.set i (some true)
                 live_count := s.live_count + 1 } i := by
  unfold set_pattern_pre
  rw [h0]
  simp

theorem set_pattern_pre_true_none (s : LPState) (i : Nat)
    (h0 : s.pattern.getD i none = some true) :
    set_pattern_pre s i none =
      undo_component_merge
        { s with pattern := s.pattern.set i none
                 live_count := s.live_count - 1 } i := by
  unfold set_pattern_pre
  rw [h0]
  simp

/-! ## Invariant preservation: the Unset-to-Dead transition -/

theorem stateInv_close (s : LPState) (i : Nat) (hI : StateInv s) (hiN : i < N)
    (h0 : s.pattern.getD i none = none) :
    StateInv (close_components { s with pattern := s.pattern.set i (some false) } i).2 := by
  obtain ⟨h1, h2, h3, h4, h5, h6, h7, h8, h9, h10, h11, h12, h13, h14, h15,
    h16, h17, h18, h19⟩ := hI
  refine ⟨?_, h2, h3, ?_, h5, ?_, ?_, ?_, ?_, ?_, h11, h12, h13, h14, ?_,
    h16, h17, h18, h19⟩
  · show (s.pattern.set i (some false)).length = N
    rw [List.length_set]
    exact h1
  · show (alKeys (closeSweep i s.freedoms).2.1).Nodup
    rw [closeSweep_keys]
    exact h4
  · show (alKeys (alSet s.close_undo_list i (closeSweep i s.freedoms).1)).Nodup
    exact alKeys_alSet_nodup _ h6
  · intro k hk
    rw [show alKeys (close_components
        { s with pattern := s.pattern.set i (some false) } i).2.freedoms
      = alKeys s.freedoms from closeSweep_keys i s.freedoms] at hk
    exact h7 k hk
  · intro k hk
    show (s.pattern.set i (some false)).getD k none = some true
    have hik : ¬i = k := by
      intro he
      have := h8 k hk
      rw [← he, h0] at this
      simp at this
    rw [getD_set_ne _ _ _ hik]
    exact h8 k hk
  · intro k hk
    show (s.pattern.set i (some false)).getD k none = some false
    rcases mem_alKeys_alSet hk with hk | hk
    · have hik : ¬i = k := by
        intro he
        have := h9 k hk
        rw [← he, h0] at this
        simp at this
      rw [getD_set_ne _ _ _ hik]
      exact h9 k hk
    · subst hk
      exact getD_set_self _ _ _ _ (by rw [h1]; exact hiN)
  · intro k hkN hknt
    by_cases hki : k = i
    · subst hki
      exact h10 k hkN (by rw [h0]; simp)
    · refine h10 k hkN ?_
      have hknt2 : ¬(s.pattern.set i (some false)).getD k none = some true := hknt
      rw [getD_set_ne _ _ _ (fun he => hki he.symm)] at hknt2
      exact hknt2
  · intro k hk
    rw [show alKeys (close_components
        { s with pattern := s.pattern.set i (some false) } i).2.freedoms
      = alKeys s.freedoms from closeSweep_keys i s.freedoms]
    exact h15 k hk

theorem stateInv_set_false (s : LPState) (i : Nat) (hI : StateInv s) (hiN : i < N)
    (h0 : s.pattern.getD i none = none) (r : Bool) (t : LPState)
    (h : set_pattern s (i : Int) (some false) = some (r, t)) : StateInv t := by
  rw [set_pattern_unfold s i (some false) hiN (by rw [h0]; simp),
    set_pattern_pre_none_false s i h0, Option.some_bind,
    if_neg (show ¬(some false : Option Bool) = some true by simp),
    if_pos (show (some false : Option Bool) = some false from rfl)] at h
  have hclose := stateInv_close s i hI hiN h0
  by_cases hok : (close_components { s with pattern := s.pattern.set i (some false) } i).1
  · rw [if_pos hok] at h
    cases h
    exact hclose
  · rw [if_neg hok] at h
    cases h
    by_cases hemit : (close_components
        { s with pattern := s.pattern.set i (some false) } i).2.components.card = 1 ∧
        final_rule_check (close_components
          { s with pattern := s.pattern.set i (some false) } i).2 (i : Int) = true
    · rw [if_pos hemit]
      exact hclose
    · rw [if_neg hemit]
      exact hclose

/-! ## Invariant preservation: the Dead-to-Alive transition -/

theorem stateInv_undo_close (s : LPState) (i : Nat) (hI : StateInv s) (hiN : i < N)
    (h0 : s.pattern.getD i none = some false) (s5 : LPState)
    (h : undo_component_close
      { s with pattern := s.pattern.set i (some true)
               live_count := s.live_count + 1 } i = some s5) :
    StateInv s5 ∧ alKeys s5.freedoms = alKeys s.freedoms ∧ s5.parents = s.parents ∧
    s5.comp_size = s.comp_size ∧ s5.components = s.components ∧
    s5.merge_undo_list = s.merge_undo_list ∧
    s5.pattern = s.pattern.set i (some true) ∧
    s5.live_count = s.live_count + 1 := by
  obtain ⟨h1, h2, h3, h4, h5, h6, h7, h8, h9, h10, h11, h12, h13, h14, h15,
    h16, h17, h18, h19⟩ := hI
  unfold undo_component_close at h
  rw [show ({ s with pattern := s.pattern.set i (some true), live_count := s.live_count + 1 } : LPState).close_undo_list = s.close_undo_list from rfl,
    show ({ s with pattern := s.pattern.set i (some true), live_count := s.live_count + 1 } : LPState).freedoms = s.freedoms from rfl] at h
  cases hrf : restoreFreedoms i
      ((alGet? s.close_undo_list i).getD []) s.freedoms with
  | none =>
    rw [hrf] at h
    simp at h
  | some fr2 =>
    rw [hrf] at h
    simp only [Option.map_some'] at h
    cases h
    have hkeys : alKeys fr2 = alKeys s.freedoms := restoreFreedoms_keys _ _ _ _ hrf
    refine ⟨⟨?_, h2, h3, ?_, h5, ?_, ?_, ?_, ?_, ?_, h11, h12, h13, h14, ?_,
      h16, h17, h18, h19⟩, hkeys, rfl, rfl, rfl, rfl, rfl, rfl⟩
    · show (s.pattern.set i (some true)).length = N
      rw [List.length_set]
      exact h1
    · show (alKeys fr2).Nodup
      rw [hkeys]
      exact h4
    · exact alKeys_alPop_nodup h6
    · intro k hk
      have hk2 : k ∈ alKeys s.freedoms := by rw [← hkeys]; exact hk
      exact h7 k hk2
    · intro k hk
      show (s.pattern.set i (some true)).getD k none = some true
      by_cases hik : i = k
      · subst hik
        exact getD_set_self _ _ _ _ (by rw [h1]; exact hiN)
      · rw [getD_set_ne _ _ _ hik]
        exact h8 k hk
    · intro k hk
      show (s.pattern.set i (some true)).getD k none = some false
      have hki : ¬k = i := fun he => not_mem_alKeys_alPop h6 (he ▸ hk)
      rw [getD_set_ne _ _ _ (fun he => hki he.symm)]
      exact h9 k (mem_alKeys_alPop hk)
    · intro k hkN hknt
      by_cases hki : k = i
      · subst hki
        have : (s.pattern.set k (some true)).getD k none = some true :=
          getD_set_self _ _ _ _ (by rw [h1]; exact hkN)
        exact absurd this hknt
      · refine h10 k hkN ?_
        have hknt2 : ¬(s.pattern.set i (some true)).getD k none = some true := hknt
        rw [getD_set_ne _ _ _ (fun he => hki he.symm)] at hknt2
        exact hknt2
    · intro k hk
      rw [show alKeys fr2 = alKeys s.freedoms from hkeys]
      exact h15 k hk

theorem stateInv_merge (u : LPState) (i : Nat) (hI : StateInv u) (hiN : i < N)
    (hpat : u.pattern.getD i none = some true)
    (hpi : u.parents.getD i (-1) = -1)
    (hif : ¬i ∈ alKeys u.freedoms)
    (him : ¬i ∈ alKeys u.merge_undo_list)
    (t : LPState) (hm : merge_components u i = some t) : StateInv t := by
  obtain ⟨h1, h2, h3, h4, h5, h6, h7, h8, h9, h10, h11, h12, h13, h14, h15,
    h16, h17, h18, h19⟩ := hI
  have hic : ¬i ∈ u.components := by
    intro hmem
    have hroot := (h13 i hmem).2
    rw [hpi] at hroot
    have h0i := Int.natCast_nonneg i
    omega
  unfold merge_components at hm
  cases hcr : collectRoots u i with
  | none => rw [hcr] at hm; simp at hm
  | some nearby =>
    rw [hcr] at hm
    simp only [Option.some_bind] at hm
    obtain ⟨hnd_nb, hroots_nb⟩ := collectRoots_spec u i nearby hcr
    have hinot : ¬i ∈ nearby := by
      intro hmem
      have hmm := (hroots_nb i hmem).2
      rw [hpi] at hmm
      have h0i := Int.natCast_nonneg i
      omega
    cases nearby with
    | nil =>
      cases hm
      refine ⟨h1, ?_, ?_, ?_, h5, h6, ?_, h8, h9, ?_, ?_, ?_, ?_, ?_, ?_, ?_,
        h17, ?_, h19⟩
      · show (u.parents.set i (i : Int)).length = N
        rw [List.length_set]
        exact h2
      · show (u.comp_size.set i 1).length = N
        rw [List.length_set]
        exact h3
      · show (alKeys (alSet u.freedoms i (newFreedoms i))).Nodup
        exact alKeys_alSet_nodup _ h4
      · intro k hk
        show ¬(u.parents.set i (i : Int)).getD k (-1) = -1
        rcases mem_alKeys_alSet hk with hk | hk
        · have hki : ¬i = k := fun he => hif (he ▸ hk)
          rw [getD_set_ne _ _ _ hki]
          exact h7 k hk
        · subst hk
          rw [getD_set_self _ _ _ _ (by rw [h2]; exact hiN)]
          intro hh
          have h0k := Int.natCast_nonneg k
          omega
      · intro k hkN hknt
        show (u.parents.set i (i : Int)).getD k (-1) = -1
        have hki : ¬k = i := fun he => hknt (he ▸ hpat)
        rw [getD_set_ne _ _ _ (fun he => hki he.symm)]
        exact h10 k hkN hknt
      · intro k hkN hp
        have hp2 : (u.parents.set i (i : Int)).getD k (-1) = -1 := hp
        have hki : ¬k = i := by
          intro he
          subst he
          rw [getD_set_self _ _ _ _ (by rw [h2]; exact hkN)] at hp2
          have h0k := Int.natCast_nonneg k
          omega
        show (u.comp_size.set i 1).getD k 0 = 0
        rw [getD_set_ne _ _ _ (fun he => hki he.symm)]
        rw [getD_set_ne _ _ _ (fun he => hki he.symm)] at hp2
        exact h11 k hkN hp2
      · intro k hkN hr
        show k ∈ insert i u.components
        have hr2 : (u.parents.set i (i : Int)).getD k (-1) = (k : Int) := hr
        by_cases hki : k = i
        · subst hki
          exact Finset.mem_insert_self k _
        · rw [getD_set_ne _ _ _ (fun he => hki he.symm)] at hr2
          exact Finset.mem_insert_of_mem (h12 k hkN hr2)
      · intro k hk
        have hk2 : k ∈ insert i u.components := hk
        rcases Finset.mem_insert.mp hk2 with hki | hkc
        · subst hki
          refine ⟨hiN, ?_⟩
          show (u.parents.set k (k : Int)).getD k (-1) = (k : Int)
          exact getD_set_self _ _ _ _ (by rw [h2]; exact hiN)
        · refine ⟨(h13 k hkc).1, ?_⟩
          show (u.parents.set i (i : Int)).getD k (-1) = (k : Int)
          rw [getD_set_ne _ _ _ (fun he => hic (by rw [he]; exact hkc))]
          exact (h13 k hkc).2
      · intro k hkN
        show -1 ≤ (u.parents.set i (i : Int)).getD k (-1)
        by_cases hki : i = k
        · subst hki
          rw [getD_set_self _ _ _ _ (by rw [h2]; exact hkN)]
          have h0k := Int.natCast_nonneg i
          omega
        · rw [getD_set_ne _ _ _ hki]
          exact h14 k hkN
      · intro k hk
        intro hk2
        have hk3 : k ∈ alKeys (alSet u.freedoms i (newFreedoms i)) := hk2
        rcases mem_alKeys_alSet hk3 with hk3 | hk3
        · exact h15 k hk hk3
        · subst hk3
          exact him hk
      · intro k hk
        show ¬(u.parents.set i (i : Int)).getD k (-1) = (k : Int)
        have hki : ¬i = k := fun he => him (he ▸ hk)
        rw [getD_set_ne _ _ _ hki]
        exact h16 k hk
      · intro p hp x hx
        obtain ⟨w1, w2, w3, w4⟩ := h18 p hp x hx
        have hxi : ¬x = i := fun he => w3 (he ▸ hpi)
        refine ⟨w1, w2, ?_, ?_⟩
        · show ¬(u.parents.set i (i : Int)).getD x (-1) = -1
          rw [getD_set_ne _ _ _ (fun he => hxi he.symm)]
          exact w3
        · show ¬(u.parents.set i (i : Int)).getD x (-1) = (x : Int)
          rw [getD_set_ne _ _ _ (fun he => hxi he.symm)]
          exact w4
    | cons n0 rest =>
      simp only at hm
      set nb : List Nat := n0 :: rest with hnb
      set sorted : List Nat := nb.insertionSort
        (fun a b => u.comp_size.getD a 0 ≤ u.comp_size.getD b 0) with hsorted_def
      have hperm : sorted.Perm nb := List.perm_insertionSort _ nb
      have hsne : sorted ≠ [] := by
        intro h
        have hle := hperm.length_eq
        rw [h, hnb] at hle
        simp at hle
      obtain ⟨last, hlast⟩ : ∃ a, sorted.getLast? = some a := by
        cases hl : sorted.getLast? with
        | none => exact absurd (List.getLast?_eq_none_iff.mp hl) hsne
        | some a => exact ⟨a, rfl⟩
      have hjdef : sorted.getLast?.getD 0 = last := by rw [hlast]; rfl
      rw [hjdef] at hm
      have hconcat : sorted.dropLast ++ [last] = sorted := concat_dropLast_getLast hlast
      have hsnd : sorted.Nodup := hperm.nodup_iff.mpr hnd_nb
      have hlast_mem : last ∈ nb := hperm.mem_iff.mp
        (by rw [← hconcat]; exact List.mem_append_right _ (List.mem_singleton_self last))
      obtain ⟨hlastN, hlastroot⟩ := hroots_nb last hlast_mem
      have happnd : (sorted.dropLast ++ [last]).Nodup := by rw [hconcat]; exact hsnd
      have hldrop : ¬last ∈ sorted.dropLast := not_mem_dropLast_of_nodup happnd
      have hksnd : sorted.dropLast.Nodup := happnd.of_append_left
      have hks_nb : ∀ k ∈ sorted.dropLast, k ∈ nb := fun k hk =>
        hperm.mem_iff.mp (by rw [← hconcat]; exact List.mem_append_left _ hk)
      have hks_spec : ∀ k ∈ sorted.dropLast, k < N ∧ u.parents.getD k (-1) = (k : Int) :=
        fun k hk => hroots_nb k (hks_nb k hk)
      have hine_last : ¬i = last := fun hh => hinot (hh ▸ hlast_mem)
      have hine_ks : ¬i ∈ sorted.dropLast := fun hk => hinot (hks_nb i hk)
      cases hof : alGet? u.freedoms last with
      | none => rw [hof] at hm; simp at hm
      | some old_fr =>
        rw [hof] at hm
        simp only [Option.some_bind] at hm
        cases hab : absorbLoop last sorted.dropLast u with
        | none => rw [hab] at hm; simp at hm
        | some t1 =>
          rw [hab] at hm
          simp only [Option.some_bind] at hm
          obtain ⟨hp1, hl1, hmu1, hcu1, ho1, hpar1, hsz1, ⟨V, hfr1⟩, hcomp1⟩ :=
            absorbLoop_spec last sorted.dropLast u t1 hldrop (by omega)
              (by rw [hof]; rfl) hab
          cases hfj : alGet? t1.freedoms last with
          | none => rw [hfj] at hm; simp at hm
          | some fj1 =>
            rw [hfj] at hm
            simp only [Option.some_bind] at hm
            by_cases hifj : i ∈ fj1
            · rw [if_pos hifj] at hm
              cases hm
              have hplen1 : t1.parents.length = N := by
                rw [hpar1, length_foldl_set, h2]
              have hslen1 : t1.comp_size.length = N := by
                rw [hsz1, List.length_set, h3]
              have hlast_key : last ∈ alKeys u.freedoms :=
                mem_alKeys_of_isSome (by rw [hof]; rfl)
              have hfkeys1 : alKeys t1.freedoms = alKeys u.freedoms := by
                rw [hfr1]
                exact alKeys_alSet_of_mem _ hlast_key
              have hlast_key1 : last ∈ alKeys t1.freedoms := by
                rw [hfkeys1]
                exact hlast_key
              have hfkeysT : alKeys (alSet t1.freedoms last (fj1.erase i ∪ newFreedoms i)) =
                  alKeys u.freedoms := by
                rw [alKeys_alSet_of_mem _ hlast_key1, hfkeys1]
              have hparT : ∀ m, (t1.parents.set i (last : Int)).getD m (-1) =
                  if m = i then (last : Int)
                  else if m ∈ sorted.dropLast then (last : Int)
                  else u.parents.getD m (-1) := by
                intro m
                by_cases hmi : m = i
                · subst hmi
                  rw [if_pos rfl]
                  exact getD_set_self _ _ _ _ (by rw [hplen1]; exact hiN)
                · rw [if_neg hmi, getD_set_ne _ _ _ (fun he => hmi he.symm), hpar1,
                    foldl_set_getD]
                  by_cases hmk : m ∈ sorted.dropLast
                  · rw [if_pos hmk, if_pos ⟨hmk, by rw [h2]; exact (hks_spec m hmk).1⟩]
                  · rw [if_neg hmk, if_neg (fun hh => hmk hh.1)]
              refine ⟨?_, ?_, ?_, ?_, ?_, ?_, ?_, ?_, ?_, ?_, ?_, ?_, ?_, ?_, ?_, ?_,
                ?_, ?_, ?_⟩
              · show t1.pattern.length = N
                rw [hp1]
                exact h1
              · show (t1.parents.set i (last : Int)).length = N
                rw [List.length_set]
                exact hplen1
              · show ((t1.comp_size.set i 1).set last
                    ((t1.comp_size.set i 1).getD last 0 + 1)).length = N
                rw [List.length_set, List.length_set]
                exact hslen1
              · show (alKeys (alSet t1.freedoms last (fj1.erase i ∪ newFreedoms i))).Nodup
                rw [hfkeysT]
                exact h4
              · show (alKeys (alSet t1.merge_undo_list i (sorted, old_fr))).Nodup
                refine alKeys_alSet_nodup _ ?_
                rw [hmu1]
                exact h5
              · show (alKeys t1.close_undo_list).Nodup
                rw [hcu1]
                exact h6
              · intro k hk
                have hk2 : k ∈ alKeys (alSet t1.freedoms last (fj1.erase i ∪ newFreedoms i)) := hk
                rw [hfkeysT] at hk2
                show ¬(t1.parents.set i (last : Int)).getD k (-1) = -1
                rw [hparT k]
                by_cases hki : k = i
                · exact absurd (hki ▸ hk2) hif
                · rw [if_neg hki]
                  by_cases hkd : k ∈ sorted.dropLast
                  · rw [if_pos hkd]
                    intro hh
                    have h0l := Int.natCast_nonneg last
                    omega
                  · rw [if_neg hkd]
                    exact h7 k hk2
              · intro k hk
                have hk2 : k ∈ alKeys (alSet t1.merge_undo_list i (sorted, old_fr)) := hk
                show t1.pattern.getD k none = some true
                rw [hp1]
                rcases mem_alKeys_alSet hk2 with hk3 | hk3
                · rw [hmu1] at hk3
                  exact h8 k hk3
                · subst hk3
                  exact hpat
              · intro k hk
                have hk2 : k ∈ alKeys t1.close_undo_list := hk
                rw [hcu1] at hk2
                show t1.pattern.getD k none = some false
                rw [hp1]
                exact h9 k hk2
              · intro k hkN hknt
                have hknt2 : ¬t1.pattern.getD k none = some true := hknt
                rw [hp1] at hknt2
                show (t1.parents.set i (last : Int)).getD k (-1) = -1
                rw [hparT k]
                have hki : ¬k = i := fun he => hknt2 (he ▸ hpat)
                rw [if_neg hki]
                by_cases hkd : k ∈ sorted.dropLast
                · exfalso
                  have hcl := h10 k hkN hknt2
                  rw [(hks_spec k hkd).2] at hcl
                  have h0k := Int.natCast_nonneg k
                  omega
                · rw [if_neg hkd]
                  exact h10 k hkN hknt2
              · intro k hkN hp
                have hp2 : (t1.parents.set i (last : Int)).getD k (-1) = -1 := hp
                rw [hparT k] at hp2
                by_cases hki : k = i
                · rw [if_pos hki] at hp2
                  exfalso
                  have h0l := Int.natCast_nonneg last
                  omega
                · rw [if_neg hki] at hp2
                  by_cases hkd : k ∈ sorted.dropLast
                  · rw [if_pos hkd] at hp2
                    exfalso
                    have h0l := Int.natCast_nonneg last
                    omega
                  · rw [if_neg hkd] at hp2
                    have hklast : ¬k = last := by
                      intro he
                      rw [he, hlastroot] at hp2
                      have h0l := Int.natCast_nonneg last
                      omega
                    show ((t1.comp_size.set i 1).set last
                        ((t1.comp_size.set i 1).getD last 0 + 1)).getD k 0 = 0
                    rw [getD_set_ne _ _ _ (fun he => hklast he.symm),
                      getD_set_ne _ _ _ (fun he => hki he.symm), hsz1,
                      getD_set_ne _ _ _ (fun he => hklast he.symm)]
                    exact h11 k hkN hp2
              · intro k hkN hr
                have hr2 : (t1.parents.set i (last : Int)).getD k (-1) = (k : Int) := hr
                rw [hparT k] at hr2
                by_cases hki : k = i
                · rw [if_pos hki] at hr2
                  exfalso
                  have hlk : last = k := Nat.cast_inj.mp hr2
                  exact hine_last (by rw [← hki, ← hlk])
                · rw [if_neg hki] at hr2
                  by_cases hkd : k ∈ sorted.dropLast
                  · rw [if_pos hkd] at hr2
                    exfalso
                    have hlk : last = k := Nat.cast_inj.mp hr2
                    exact hldrop (hlk ▸ hkd)
                  · rw [if_neg hkd] at hr2
                    show k ∈ t1.components
                    rw [hcomp1]
                    exact (mem_foldl_erase _ _ _).mpr ⟨h12 k hkN hr2, hkd⟩
              · intro k hk
                have hk2 : k ∈ t1.components := hk
                rw [hcomp1] at hk2
                obtain ⟨hkc, hkd⟩ := (mem_foldl_erase _ _ _).mp hk2
                refine ⟨(h13 k hkc).1, ?_⟩
                show (t1.parents.set i (last : Int)).getD k (-1) = (k : Int)
                rw [hparT k]
                have hki : ¬k = i := fun he => hic (he ▸ hkc)
                rw [if_neg hki, if_neg hkd]
                exact (h13 k hkc).2
              · intro k hkN
                show -1 ≤ (t1.parents.set i (last : Int)).getD k (-1)
                rw [hparT k]
                by_cases hki : k = i
                · rw [if_pos hki]
                  have h0l := Int.natCast_nonneg last
                  omega
                · rw [if_neg hki]
                  by_cases hkd : k ∈ sorted.dropLast
                  · rw [if_pos hkd]
                    have h0l := Int.natCast_nonneg last
                    omega
                  · rw [if_neg hkd]
                    exact h14 k hkN
              · intro k hk
                have hk2 : k ∈ alKeys (alSet t1.merge_undo_list i (sorted, old_fr)) := hk
                intro hkf
                have hkf2 : k ∈ alKeys (alSet t1.freedoms last
                    (fj1.erase i ∪ newFreedoms i)) := hkf
                rw [hfkeysT] at hkf2
                rcases mem_alKeys_alSet hk2 with hk3 | hk3
                · rw [hmu1] at hk3
                  exact h15 k hk3 hkf2
                · subst hk3
                  exact hif hkf2
              · intro k hk
                have hk2 : k ∈ alKeys (alSet t1.merge_undo_list i (sorted, old_fr)) := hk
                show ¬(t1.parents.set i (last : Int)).getD k (-1) = (k : Int)
                rw [hparT k]
                rcases mem_alKeys_alSet hk2 with hk3 | hk3
                · rw [hmu1] at hk3
                  have hki : ¬k = i := fun he => him (he ▸ hk3)
                  rw [if_neg hki]
                  by_cases hkd : k ∈ sorted.dropLast
                  · rw [if_pos hkd]
                    intro hh
                    exact hldrop ((Nat.cast_inj.mp hh) ▸ hkd)
                  · rw [if_neg hkd]
                    exact h16 k hk3
                · subst hk3
                  rw [if_pos rfl]
                  intro hh
                  exact hine_last (Nat.cast_inj.mp hh).symm
              · intro p hp
                have hp2 : p ∈ alSet t1.merge_undo_list i (sorted, old_fr) := hp
                rcases mem_alSet hp2 with hp3 | hp3
                · rw [hmu1] at hp3
                  exact h17 p hp3
                · subst hp3
                  intro hmem
                  exact hinot (hperm.mem_iff.mp hmem)
              · intro p hp x hx
                have hp2 : p ∈ alSet t1.merge_undo_list i (sorted, old_fr) := hp
                rcases mem_alSet hp2 with hp3 | hp3
                · rw [hmu1] at hp3
                  obtain ⟨w1, w2, w3, w4⟩ := h18 p hp3 x hx
                  have hxi : ¬x = i := fun he => w3 (he ▸ hpi)
                  have hxd : ¬x ∈ sorted.dropLast := fun hd => w4 ((hks_spec x hd).2)
                  refine ⟨w1, ?_, ?_, ?_⟩
                  · intro hk
                    have hk2 : x ∈ alKeys (alSet t1.merge_undo_list i (sorted, old_fr)) := hk
                    rcases mem_alKeys_alSet hk2 with hk3 | hk3
                    · rw [hmu1] at hk3
                      exact w2 hk3
                    · exact hxi hk3
                  · show ¬(t1.parents.set i (last : Int)).getD x (-1) = -1
                    rw [hparT x, if_neg hxi, if_neg hxd]
                    exact w3
                  · show ¬(t1.parents.set i (last : Int)).getD x (-1) = (x : Int)
                    rw [hparT x, if_neg hxi, if_neg hxd]
                    exact w4
                · subst hp3
                  have hx2 : x ∈ sorted.dropLast := hx
                  have hxi : ¬x = i := fun he => hine_ks (he ▸ hx2)
                  refine ⟨(hks_spec x hx2).1, ?_, ?_, ?_⟩
                  · intro hk
                    have hk2 : x ∈ alKeys (alSet t1.merge_undo_list i (sorted, old_fr)) := hk
                    rcases mem_alKeys_alSet hk2 with hk3 | hk3
                    · rw [hmu1] at hk3
                      exact h16 x hk3 (hks_spec x hx2).2
                    · exact hine_ks (hk3 ▸ hx2)
                  · show ¬(t1.parents.set i (last : Int)).getD x (-1) = -1
                    rw [hparT x, if_neg hxi, if_pos hx2]
                    intro hh
                    have h0l := Int.natCast_nonneg last
                    omega
                  · show ¬(t1.parents.set i (last : Int)).getD x (-1) = (x : Int)
                    rw [hparT x, if_neg hxi, if_pos hx2]
                    intro hh
                    exact hldrop ((Nat.cast_inj.mp hh) ▸ hx2)
              · intro p hp q hq x hxp hxq
                have hp2 : p ∈ alSet t1.merge_undo_list i (sorted, old_fr) := hp
                have hq2 : q ∈ alSet t1.merge_undo_list i (sorted, old_fr) := hq
                rcases mem_alSet hp2 with hp3 | hp3
                · rcases mem_alSet hq2 with hq3 | hq3
                  · rw [hmu1] at hp3 hq3
                    exact h19 p hp3 q hq3 x hxp hxq
                  · exfalso
                    rw [hmu1] at hp3
                    have hw := (h18 p hp3 x hxp).2.2.2
                    rw [hq3] at hxq
                    exact hw ((hks_spec x hxq).2)
                · rcases mem_alSet hq2 with hq3 | hq3
                  · exfalso
                    rw [hmu1] at hq3
                    have hw := (h18 q hq3 x hxq).2.2.2
                    rw [hp3] at hxp
                    exact hw ((hks_spec x hxp).2)
                  · rw [hp3, hq3]
            · rw [if_neg hifj] at hm
              simp at hm

theorem stateInv_set_true (s : LPState) (i : Nat) (hI : StateInv s) (hiN : i < N)
    (h0 : s.pattern.getD i none = some false) (r : Bool) (t : LPState)
    (h : set_pattern s (i : Int) (some true) = some (r, t)) : StateInv t := by
  have hI2 := hI
  obtain ⟨h1, h2, h3, h4, h5, h6, h7, h8, h9, h10, h11, h12, h13, h14, h15,
    h16, h17, h18, h19⟩ := hI2
  rw [set_pattern_unfold s i (some true) hiN (by rw [h0]; simp),
    set_pattern_pre_false_true s i h0] at h
  cases h5c : undo_component_close
      { s with pattern := s.pattern.set i (some true)
               live_count := s.live_count + 1 } i with
  | none =>
    rw [h5c] at h
    simp at h
  | some s5 =>
    rw [h5c, Option.some_bind, if_pos rfl] at h
    obtain ⟨hI5, hfk5, hpar5, _hcs5, _hcomp5, hmu5, hpat5, _hlc5⟩ :=
      stateInv_undo_close s i hI hiN h0 s5 h5c
    have hpat_i5 : s5.pattern.getD i none = some true := by
      rw [hpat5]
      exact getD_set_self _ _ _ _ (by rw [h1]; exact hiN)
    have hpi5 : s5.parents.getD i (-1) = -1 := by
      rw [hpar5]
      exact h10 i hiN (by rw [h0]; simp)
    have hif5 : ¬i ∈ alKeys s5.freedoms := by
      rw [hfk5]
      exact fun hk => h7 i hk (h10 i hiN (by rw [h0]; simp))
    have him5 : ¬i ∈ alKeys s5.merge_undo_list := by
      rw [hmu5]
      intro hk
      have hmm := h8 i hk
      rw [h0] at hmm
      simp at hmm
    cases hm6 : merge_components s5 i with
    | none =>
      rw [hm6] at h
      simp at h
    | some s6 =>
      have hI6 := stateInv_merge s5 i hI5 hiN hpat_i5 hpi5 hif5 him5 s6 hm6
      rw [hm6, Option.some_bind] at h
      by_cases hb1 : max_n < s6.live_count + (s6.components.card : Int) - 1
      · rw [if_pos hb1] at h
        cases h
        exact hI6
      · rw [if_neg hb1] at h
        cases hmb : minimum_bridge_length s6 with
        | none =>
          rw [hmb] at h
          simp at h
        | some b =>
          rw [hmb, Option.some_bind] at h
          by_cases hb2 : max_n < s6.live_count + b
          · rw [if_pos hb2] at h
            cases h
            exact hI6
          · rw [if_neg hb2] at h
            cases h
            exact hI6

/-! ## Invariant preservation: the Alive-to-Unset transition -/

theorem undo_merge_guard_none (u : LPState) (i : Nat)
    (hg : 0 ≤ u.parents.getD i (-1) ∧
      ((N : Int) ≤ u.parents.getD i (-1) ∨
        ¬u.parents.getD (u.parents.getD i (-1)).toNat (-1) = u.parents.getD i (-1))) :
    undo_component_merge u i = none := by
  unfold undo_component_merge
  rw [if_pos hg]

theorem undo_merge_record_nolast (u : LPState) (i : Nat) (nearby : List Nat)
    (old_fr : Finset Nat)
    (hng : ¬(0 ≤ u.parents.getD i (-1) ∧
      ((N : Int) ≤ u.parents.getD i (-1) ∨
        ¬u.parents.getD (u.parents.getD i (-1)).toNat (-1) = u.parents.getD i (-1))))
    (hmu : alGet? u.merge_undo_list i = some (nearby, old_fr))
    (hlast : nearby.getLast? = none) :
    undo_component_merge u i = none := by
  unfold undo_component_merge
  rw [if_neg hng, hmu]
  simp only [hlast]
  rfl

theorem undo_merge_record_badlast (u : LPState) (i last : Nat) (nearby : List Nat)
    (old_fr : Finset Nat)
    (hng : ¬(0 ≤ u.parents.getD i (-1) ∧
      ((N : Int) ≤ u.parents.getD i (-1) ∨
        ¬u.parents.getD (u.parents.getD i (-1)).toNat (-1) = u.parents.getD i (-1))))
    (hmu : alGet? u.merge_undo_list i = some (nearby, old_fr))
    (hlast : nearby.getLast? = some last)
    (hbad : ¬((last : Int) = u.parents.getD i (-1) ∧ last < N)) :
    undo_component_merge u i = none := by
  unfold undo_component_merge
  rw [if_neg hng, hmu]
  simp only [hlast, Option.some_bind]
  rw [if_pos hbad]

theorem undo_merge_singleton_fail (u : LPState) (i : Nat)
    (hng : ¬(0 ≤ u.parents.getD i (-1) ∧
      ((N : Int) ≤ u.parents.getD i (-1) ∨
        ¬u.parents.getD (u.parents.getD i (-1)).toNat (-1) = u.parents.getD i (-1))))
    (hmu : alGet? u.merge_undo_list i = none)
    (hj0 : 0 ≤ u.parents.getD i (-1))
    (hbad : ¬((i : Int) = u.parents.getD i (-1) ∧
      (alGet? u.freedoms i).isSome ∧ i ∈ u.components)) :
    undo_component_merge u i = none := by
  unfold undo_component_merge
  rw [if_neg hng, hmu, if_pos hj0, if_pos hbad]

theorem undo_merge_neg (u : LPState) (i : Nat)
    (hmu : alGet? u.merge_undo_list i = none)
    (hj : u.parents.getD i (-1) < 0) :
    undo_component_merge u i = some u := by
  unfold undo_component_merge
  rw [if_neg (fun hc => absurd hc.1 (not_le.mpr hj)), hmu, if_neg (not_le.mpr hj)]

theorem undo_merge_record_eq (u : LPState) (i last : Nat) (nearby : List Nat)
    (old_fr : Finset Nat) (hlastN : last < N)
    (hgi : u.parents.getD i (-1) = (last : Int))
    (hglast : u.parents.getD last (-1) = (last : Int))
    (hmu : alGet? u.merge_undo_list i = some (nearby, old_fr))
    (hlast : nearby.getLast? = some last) :
    undo_component_merge u i =
      (splitLoop last nearby.dropLast
        { u with merge_undo_list := alPop u.merge_undo_list i
                 comp_size := u.comp_size.set last (u.comp_size.getD last 0 - 1) }).map
        (fun t2 => { t2 with freedoms := alSet t2.freedoms last old_fr
                             parents := t2.parents.set i (-1)
                             comp_size := t2.comp_size.set i 0 }) := by
  unfold undo_component_merge
  rw [hgi, hmu]
  rw [if_neg (by
    push_neg
    intro _
    refine ⟨by exact_mod_cast hlastN, ?_⟩
    rw [Int.toNat_natCast]
    exact hglast)]
  simp only [hlast, Option.some_bind]
  rw [if_neg (by simp [hlastN])]

theorem stateInv_undo_merge (s : LPState) (i : Nat) (hI : StateInv s) (hiN : i < N)
    (h0 : s.pattern.getD i none = some true) (s4 : LPState)
    (h : undo_component_merge
      { s with pattern := s.pattern.set i none
               live_count := s.live_count - 1 } i = some s4) :
    StateInv s4 := by
  obtain ⟨h1, h2, h3, h4, h5, h6, h7, h8, h9, h10, h11, h12, h13, h14, h15,
    h16, h17, h18, h19⟩ := hI
  set u0 : LPState := { s with pattern := s.pattern.set i none, live_count := s.live_count - 1 } with hu0
  by_cases hguard : 0 ≤ u0.parents.getD i (-1) ∧
      ((N : Int) ≤ u0.parents.getD i (-1) ∨
        ¬u0.parents.getD (u0.parents.getD i (-1)).toNat (-1) = u0.parents.getD i (-1))
  · rw [undo_merge_guard_none u0 i hguard] at h
    simp at h
  · cases hgm : alGet? u0.merge_undo_list i with
    | none =>
      have him0 : ¬i ∈ alKeys s.merge_undo_list := alGet?_none_not_mem hgm
      by_cases hj0 : 0 ≤ u0.parents.getD i (-1)
      · by_cases hok : (i : Int) = u0.parents.getD i (-1) ∧
            (alGet? u0.freedoms i).isSome ∧ i ∈ u0.components
        · have hgi : u0.parents.getD i (-1) = (i : Int) := hok.1.symm
          have hgi_s : s.parents.getD i (-1) = (i : Int) := hgi
          rw [undo_merge_singleton_case u0 i hiN hgi hgm hok.2.1 hok.2.2] at h
          cases h
          refine ⟨?_, ?_, ?_, ?_, h5, h6, ?_, ?_, ?_, ?_, ?_, ?_, ?_, ?_, ?_,
            ?_, h17, ?_, h19⟩
          · show (s.pattern.set i none).length = N
            rw [List.length_set]
            exact h1
          · show (s.parents.set i (-1)).length = N
            rw [List.length_set]
            exact h2
          · show (s.comp_size.set i 0).length = N
            rw [List.length_set]
            exact h3
          · show (alKeys (alPop s.freedoms i)).Nodup
            exact alKeys_alPop_nodup h4
          · intro k hk
            have hk2 : k ∈ alKeys (alPop s.freedoms i) := hk
            have hki : ¬k = i := fun he => not_mem_alKeys_alPop h4 (he ▸ hk2)
            show ¬(s.parents.set i (-1)).getD k (-1) = -1
            rw [getD_set_ne _ _ _ (fun he => hki he.symm)]
            exact h7 k (mem_alKeys_alPop hk2)
          · intro k hk
            have hk2 : k ∈ alKeys s.merge_undo_list := hk
            have hki : ¬k = i := fun he => him0 (he ▸ hk2)
            show (s.pattern.set i none).getD k none = some true
            rw [getD_set_ne _ _ _ (fun he => hki he.symm)]
            exact h8 k hk2
          · intro k hk
            have hk2 : k ∈ alKeys s.close_undo_list := hk
            have hx := h9 k hk2
            have hki : ¬k = i := by
              intro he
              rw [he, h0] at hx
              simp at hx
            show (s.pattern.set i none).getD k none = some false
            rw [getD_set_ne _ _ _ (fun he => hki he.symm)]
            exact hx
          · intro k hkN hknt
            show (s.parents.set i (-1)).getD k (-1) = -1
            by_cases hki : k = i
            · subst hki
              exact getD_set_self _ _ _ _ (by rw [h2]; exact hkN)
            · rw [getD_set_ne _ _ _ (fun he => hki he.symm)]
              have hknt2 : ¬(s.pattern.set i none).getD k none = some true := hknt
              rw [getD_set_ne _ _ _ (fun he => hki he.symm)] at hknt2
              exact h10 k hkN hknt2
          · intro k hkN hp
            have hp2 : (s.parents.set i (-1)).getD k (-1) = -1 := hp
            show (s.comp_size.set i 0).getD k 0 = 0
            by_cases hki : k = i
            · subst hki
              exact getD_set_self _ _ _ _ (by rw [h3]; exact hkN)
            · rw [getD_set_ne _ _ _ (fun he => hki he.symm)] at hp2
              rw [getD_set_ne _ _ _ (fun he => hki he.symm)]
              exact h11 k hkN hp2
          · intro k hkN hr
            have hr2 : (s.parents.set i (-1)).getD k (-1) = (k : Int) := hr
            show k ∈ s.components.erase i
            by_cases hki : k = i
            · subst hki
              rw [getD_set_self _ _ _ _ (by rw [h2]; exact hkN)] at hr2
              exfalso
              have h0k := Int.natCast_nonneg k
              omega
            · rw [getD_set_ne _ _ _ (fun he => hki he.symm)] at hr2
              exact Finset.mem_erase.mpr ⟨hki, h12 k hkN hr2⟩
          · intro k hk
            have hk2 : k ∈ s.components.erase i := hk
            obtain ⟨hki, hkc⟩ := Finset.mem_erase.mp hk2
            refine ⟨(h13 k hkc).1, ?_⟩
            show (s.parents.set i (-1)).getD k (-1) = (k : Int)
            rw [getD_set_ne _ _ _ (fun he => hki he.symm)]
            exact (h13 k hkc).2
          · intro k hkN
            show -1 ≤ (s.parents.set i (-1)).getD k (-1)
            by_cases hki : i = k
            · subst hki
              rw [getD_set_self _ _ _ _ (by rw [h2]; exact hkN)]
            · rw [getD_set_ne _ _ _ hki]
              exact h14 k hkN
          · intro k hk
            have hk2 : k ∈ alKeys s.merge_undo_list := hk
            intro hkf
            have hkf2 : k ∈ alKeys (alPop s.freedoms i) := hkf
            exact h15 k hk2 (mem_alKeys_alPop hkf2)
          · intro k hk
            have hk2 : k ∈ alKeys s.merge_undo_list := hk
            have hki : ¬k = i := fun he => him0 (he ▸ hk2)
            show ¬(s.parents.set i (-1)).getD k (-1) = (k : Int)
            rw [getD_set_ne _ _ _ (fun he => hki he.symm)]
            exact h16 k hk2
          · intro p hp x hx
            obtain ⟨w1, w2, w3, w4⟩ := h18 p hp x hx
            have hxi : ¬x = i := fun he => w4 (by rw [he]; exact hgi_s)
            refine ⟨w1, w2, ?_, ?_⟩
            · show ¬(s.parents.set i (-1)).getD x (-1) = -1
              rw [getD_set_ne _ _ _ (fun he => hxi he.symm)]
              exact w3
            · show ¬(s.parents.set i (-1)).getD x (-1) = (x : Int)
              rw [getD_set_ne _ _ _ (fun he => hxi he.symm)]
              exact w4
        · rw [undo_merge_singleton_fail u0 i hguard hgm hj0 hok] at h
          simp at h
      · have hpi : s.parents.getD i (-1) = -1 := by
          have hlb := h14 i hiN
          have hj0s : ¬0 ≤ s.parents.getD i (-1) := hj0
          omega
        rw [undo_merge_neg u0 i hgm (by
          have hj0s : ¬0 ≤ s.parents.getD i (-1) := hj0
          show u0.parents.getD i (-1) < 0
          have : u0.parents.getD i (-1) = s.parents.getD i (-1) := rfl
          omega)] at h
        injection h with heq
        subst heq
        rw [hu0]
        refine ⟨?_, h2, h3, h4, h5, h6, h7, ?_, ?_, ?_, h11, h12, h13, h14, h15,
          h16, h17, h18, h19⟩
        · show (s.pattern.set i none).length = N
          rw [List.length_set]
          exact h1
        · intro k hk
          have hki : ¬k = i := fun he => him0 (he ▸ hk)
          show (s.pattern.set i none).getD k none = some true
          rw [getD_set_ne _ _ _ (fun he => hki he.symm)]
          exact h8 k hk
        · intro k hk
          have hx := h9 k hk
          have hki : ¬k = i := by
            intro he
            rw [he, h0] at hx
            simp at hx
          show (s.pattern.set i none).getD k none = some false
          rw [getD_set_ne _ _ _ (fun he => hki he.symm)]
          exact hx
        · intro k hkN hknt
          by_cases hki : k = i
          · subst hki
            exact hpi
          · refine h10 k hkN ?_
            have hknt2 : ¬(s.pattern.set i none).getD k none = some true := hknt
            rw [getD_set_ne _ _ _ (fun he => hki he.symm)] at hknt2
            exact hknt2
    | some rec =>
      obtain ⟨nearby, old_fr⟩ := rec
      have hgms : alGet? s.merge_undo_list i = some (nearby, old_fr) := hgm
      have hrec_mem : (i, nearby, old_fr) ∈ s.merge_undo_list := alGet?_mem hgms
      have him_mem : i ∈ alKeys s.merge_undo_list :=
        List.mem_map_of_mem Prod.fst hrec_mem
      cases hlast : nearby.getLast? with
      | none =>
        rw [undo_merge_record_nolast u0 i nearby old_fr hguard hgm hlast] at h
        simp at h
      | some last =>
        by_cases hcnd : (last : Int) = u0.parents.getD i (-1) ∧ last < N
        · have hgi : u0.parents.getD i (-1) = (last : Int) := hcnd.1.symm
          have hgi_s : s.parents.getD i (-1) = (last : Int) := hgi
          have hlastN := hcnd.2
          have hj0 : 0 ≤ u0.parents.getD i (-1) := by
            rw [hgi]
            exact Int.natCast_nonneg last
          have hg2 : ¬((N : Int) ≤ u0.parents.getD i (-1) ∨
              ¬u0.parents.getD (u0.parents.getD i (-1)).toNat (-1) =
                u0.parents.getD i (-1)) := fun hx => hguard ⟨hj0, hx⟩
          push_neg at hg2
          have hglast : u0.parents.getD last (-1) = (last : Int) := by
            have hgl := hg2.2
            rw [hgi, Int.toNat_natCast] at hgl
            exact hgl
          have hglast_s : s.parents.getD last (-1) = (last : Int) := hglast
          rw [undo_merge_record_eq u0 i last nearby old_fr hlastN hgi hglast hgm hlast] at h
          cases hsp : splitLoop last nearby.dropLast
              { u0 with merge_undo_list := alPop u0.merge_undo_list i
                        comp_size := u0.comp_size.set last (u0.comp_size.getD last 0 - 1) } with
          | none =>
            rw [hsp] at h
            simp at h
          | some t2 =>
            rw [hsp] at h
            simp only [Option.map_some'] at h
            cases h
            obtain ⟨sp1, sp2, sp3, sp4, sp5, sp6, sp7, sp8, spout, spin, spsz, spcm⟩ :=
              splitLoop_inv last nearby.dropLast _ t2 hsp
            have sp1b : t2.pattern = s.pattern.set i none := sp1
            have sp3b : t2.merge_undo_list = alPop s.merge_undo_list i := sp3
            have sp4b : t2.close_undo_list = s.close_undo_list := sp4
            have sp5b : t2.freedoms = s.freedoms := sp5
            have sp7b : t2.parents.length = N := by
              rw [sp7]
              exact h2
            have sp8b : t2.comp_size.length = N := by
              rw [sp8]
              show (s.comp_size.set last (s.comp_size.getD last 0 - 1)).length = N
              rw [List.length_set]
              exact h3
            have hpout : ∀ m, ¬m ∈ nearby.dropLast →
                t2.parents.getD m (-1) = s.parents.getD m (-1) := fun m hm => spout m hm
            have hpin : ∀ m ∈ nearby.dropLast, m < N ∧
                ¬s.parents.getD m (-1) = -1 ∧
                (m < s.parents.length → t2.parents.getD m (-1) = (m : Int)) :=
              fun m hm => spin m hm
            have hsz2 : ∀ m, ¬m = last → t2.comp_size.getD m 0 = s.comp_size.getD m 0 := by
              intro m hm
              have hs1 : t2.comp_size.getD m 0 =
                  (s.comp_size.set last (s.comp_size.getD last 0 - 1)).getD m 0 := spsz m hm
              rw [hs1]
              exact getD_set_ne _ _ _ (fun he => hm he.symm)
            have hcm2 : ∀ m, m ∈ t2.components ↔ m ∈ s.components ∨ m ∈ nearby.dropLast :=
              fun m => spcm m
            have hine_nb : ¬i ∈ nearby := h17 _ hrec_mem
            have hconcat : nearby.dropLast ++ [last] = nearby := concat_dropLast_getLast hlast
            have hlast_nb : last ∈ nearby := by
              rw [← hconcat]
              exact List.mem_append_right _ (List.mem_singleton_self last)
            have hine_last : ¬i = last := fun he => hine_nb (he ▸ hlast_nb)
            have hidrop : ¬i ∈ nearby.dropLast := fun hd => hine_nb (by
              rw [← hconcat]
              exact List.mem_append_left _ hd)
            have hwf : ∀ x ∈ nearby.dropLast, x < N ∧
                ¬x ∈ alKeys s.merge_undo_list ∧ ¬s.parents.getD x (-1) = -1 ∧
                ¬s.parents.getD x (-1) = (x : Int) := fun x hx => h18 _ hrec_mem x hx
            have hlastdrop : ¬last ∈ nearby.dropLast := fun hd => (hwf last hd).2.2.2 hglast_s
            have hi_fk : ¬i ∈ alKeys s.freedoms := h15 i him_mem
            have hm4sub : ∀ k, k ∈ alKeys (alPop s.merge_undo_list i) →
                k ∈ alKeys s.merge_undo_list ∧ ¬k = i := fun k hk =>
              ⟨mem_alKeys_alPop hk, fun he => not_mem_alKeys_alPop h5 (he ▸ hk)⟩
            have hparU : ∀ m, (t2.parents.set i (-1)).getD m (-1) =
                if m = i then -1
                else if m ∈ nearby.dropLast then (m : Int)
                else s.parents.getD m (-1) := by
              intro m
              by_cases hmi : m = i
              · subst hmi
                rw [if_pos rfl]
                exact getD_set_self _ _ _ _ (by rw [sp7b]; exact hiN)
              · rw [if_neg hmi, getD_set_ne _ _ _ (fun he => hmi he.symm)]
                by_cases hmd : m ∈ nearby.dropLast
                · rw [if_pos hmd]
                  exact (hpin m hmd).2.2 (by rw [h2]; exact (hpin m hmd).1)
                · rw [if_neg hmd]
                  exact hpout m hmd
            refine ⟨?_, ?_, ?_, ?_, ?_, ?_, ?_, ?_, ?_, ?_, ?_, ?_, ?_, ?_, ?_,
              ?_, ?_, ?_, ?_⟩
            · show t2.pattern.length = N
              rw [sp1b, List.length_set]
              exact h1
            · show (t2.parents.set i (-1)).length = N
              rw [List.length_set]
              exact sp7b
            · show (t2.comp_size.set i 0).length = N
              rw [List.length_set]
              exact sp8b
            · show (alKeys (alSet t2.freedoms last old_fr)).Nodup
              refine alKeys_alSet_nodup _ ?_
              rw [sp5b]
              exact h4
            · show (alKeys t2.merge_undo_list).Nodup
              rw [sp3b]
              exact alKeys_alPop_nodup h5
            · show (alKeys t2.close_undo_list).Nodup
              rw [sp4b]
              exact h6
            · intro k hk
              have hk2 : k ∈ alKeys (alSet t2.freedoms last old_fr) := hk
              show ¬(t2.parents.set i (-1)).getD k (-1) = -1
              rw [hparU k]
              rcases mem_alKeys_alSet hk2 with hk3 | hk3
              · rw [sp5b] at hk3
                have hki : ¬k = i := fun he => hi_fk (he ▸ hk3)
                rw [if_neg hki]
                by_cases hkd : k ∈ nearby.dropLast
                · rw [if_pos hkd]
                  intro hh
                  have h0k := Int.natCast_nonneg k
                  omega
                · rw [if_neg hkd]
                  exact h7 k hk3
              · subst hk3
                rw [if_neg (fun he => hine_last he.symm), if_neg hlastdrop, hglast_s]
                intro hh
                have h0l := Int.natCast_nonneg k
                omega
            · intro k hk
              have hk2 : k ∈ alKeys t2.merge_undo_list := hk
              rw [sp3b] at hk2
              obtain ⟨hk3, hki⟩ := hm4sub k hk2
              show t2.pattern.getD k none = some true
              rw [sp1b, getD_set_ne _ _ _ (fun he => hki he.symm)]
              exact h8 k hk3
            · intro k hk
              have hk2 : k ∈ alKeys t2.close_undo_list := hk
              rw [sp4b] at hk2
              have hx := h9 k hk2
              have hki : ¬k = i := by
                intro he
                rw [he, h0] at hx
                simp at hx
              show t2.pattern.getD k none = some false
              rw [sp1b, getD_set_ne _ _ _ (fun he => hki he.symm)]
              exact hx
            · intro k hkN hknt
              show (t2.parents.set i (-1)).getD k (-1) = -1
              rw [hparU k]
              by_cases hki : k = i
              · rw [if_pos hki]
              · rw [if_neg hki]
                have hknt2 : ¬t2.pattern.getD k none = some true := hknt
                rw [sp1b, getD_set_ne _ _ _ (fun he => hki he.symm)] at hknt2
                by_cases hkd : k ∈ nearby.dropLast
                · exfalso
                  exact (hwf k hkd).2.2.1 (h10 k hkN hknt2)
                · rw [if_neg hkd]
                  exact h10 k hkN hknt2
            · intro k hkN hp
              have hp2 : (t2.parents.set i (-1)).getD k (-1) = -1 := hp
              rw [hparU k] at hp2
              show (t2.comp_size.set i 0).getD k 0 = 0
              by_cases hki : k = i
              · subst hki
                exact getD_set_self _ _ _ _ (by rw [sp8b]; exact hkN)
              · rw [if_neg hki] at hp2
                by_cases hkd : k ∈ nearby.dropLast
                · rw [if_pos hkd] at hp2
                  exfalso
                  have h0k := Int.natCast_nonneg k
                  omega
                · rw [if_neg hkd] at hp2
                  have hklast : ¬k = last := by
                    intro he
                    rw [he, hglast_s] at hp2
                    have h0l := Int.natCast_nonneg last
                    omega
                  rw [getD_set_ne _ _ _ (fun he => hki he.symm), hsz2 k hklast]
                  exact h11 k hkN hp2
            · intro k hkN hr
              have hr2 : (t2.parents.set i (-1)).getD k (-1) = (k : Int) := hr
              rw [hparU k] at hr2
              show k ∈ t2.components
              by_cases hki : k = i
              · rw [if_pos hki] at hr2
                exfalso
                have h0k := Int.natCast_nonneg k
                omega
              · rw [if_neg hki] at hr2
                by_cases hkd : k ∈ nearby.dropLast
                · exact (hcm2 k).mpr (Or.inr hkd)
                · rw [if_neg hkd] at hr2
                  exact (hcm2 k).mpr (Or.inl (h12 k hkN hr2))
            · intro k hk
              have hk2 : k ∈ t2.components := hk
              rcases (hcm2 k).mp hk2 with hkc | hkd
              · refine ⟨(h13 k hkc).1, ?_⟩
                show (t2.parents.set i (-1)).getD k (-1) = (k : Int)
                rw [hparU k]
                have hki : ¬k = i := by
                  intro he
                  have hcc := (h13 k hkc).2
                  rw [he, hgi_s] at hcc
                  exact hine_last (Nat.cast_inj.mp hcc).symm
                have hkd : ¬k ∈ nearby.dropLast := fun hd => (hwf k hd).2.2.2 (h13 k hkc).2
                rw [if_neg hki, if_neg hkd]
                exact (h13 k hkc).2
              · refine ⟨(hwf k hkd).1, ?_⟩
                show (t2.parents.set i (-1)).getD k (-1) = (k : Int)
                rw [hparU k, if_neg (fun he => hidrop (by rw [← he]; exact hkd)), if_pos hkd]
            · intro k hkN
              show -1 ≤ (t2.parents.set i (-1)).getD k (-1)
              rw [hparU k]
              by_cases hki : k = i
              · rw [if_pos hki]
              · rw [if_neg hki]
                by_cases hkd : k ∈ nearby.dropLast
                · rw [if_pos hkd]
                  have h0k := Int.natCast_nonneg k
                  omega
                · rw [if_neg hkd]
                  exact h14 k hkN
            · intro k hk
              have hk2 : k ∈ alKeys t2.merge_undo_list := hk
              rw [sp3b] at hk2
              obtain ⟨hk3, hki⟩ := hm4sub k hk2
              intro hkf
              have hkf2 : k ∈ alKeys (alSet t2.freedoms last old_fr) := hkf
              rcases mem_alKeys_alSet hkf2 with hkf3 | hkf3
              · rw [sp5b] at hkf3
                exact h15 k hk3 hkf3
              · subst hkf3
                exact h16 k hk3 hglast_s
            · intro k hk
              have hk2 : k ∈ alKeys t2.merge_undo_list := hk
              rw [sp3b] at hk2
              obtain ⟨hk3, hki⟩ := hm4sub k hk2
              show ¬(t2.parents.set i (-1)).getD k (-1) = (k : Int)
              rw [hparU k, if_neg hki]
              have hkd : ¬k ∈ nearby.dropLast := fun hd => (hwf k hd).2.1 hk3
              rw [if_neg hkd]
              exact h16 k hk3
            · intro p hp
              have hp2 : p ∈ t2.merge_undo_list := hp
              rw [sp3b] at hp2
              exact h17 p (mem_alPop hp2)
            · intro p hp x hx
              have hp2 : p ∈ t2.merge_undo_list := hp
              rw [sp3b] at hp2
              have hpmem := mem_alPop hp2
              have hpne := mem_alPop_ne h5 hp2
              obtain ⟨w1, w2, w3, w4⟩ := h18 p hpmem x hx
              have hxi : ¬x = i := fun he => w2 (he ▸ him_mem)
              have hxd : ¬x ∈ nearby.dropLast := by
                intro hd
                have hpq := h19 p hpmem (i, nearby, old_fr) hrec_mem x hx hd
                exact hpne (by rw [hpq])
              refine ⟨w1, ?_, ?_, ?_⟩
              · intro hk
                have hk2 : x ∈ alKeys t2.merge_undo_list := hk
                rw [sp3b] at hk2
                exact w2 (mem_alKeys_alPop hk2)
              · show ¬(t2.parents.set i (-1)).getD x (-1) = -1
                rw [hparU x, if_neg hxi, if_neg hxd]
                exact w3
              · show ¬(t2.parents.set i (-1)).getD x (-1) = (x : Int)
                rw [hparU x, if_neg hxi, if_neg hxd]
                exact w4
            · intro p hp q hq x hxp hxq
              have hp2 : p ∈ t2.merge_undo_list := hp
              have hq2 : q ∈ t2.merge_undo_list := hq
              rw [sp3b] at hp2 hq2
              exact h19 p (mem_alPop hp2) q (mem_alPop hq2) x hxp hxq
        · rw [undo_merge_record_badlast u0 i last nearby old_fr hguard hgm hlast hcnd] at h
          simp at h

theorem stateInv_set_none (s : LPState) (i : Nat) (hI : StateInv s) (hiN : i < N)
    (h0 : s.pattern.getD i none = some true) (r : Bool) (t : LPState)
    (h : set_pattern s (i : Int) none = some (r, t)) : StateInv t := by
  rw [set_pattern_unfold s i none hiN (by rw [h0]; simp),
    set_pattern_pre_true_none s i h0] at h
  cases hum : undo_component_merge
      { s with pattern := s.pattern.set i none
               live_count := s.live_count - 1 } i with
  | none =>
    rw [hum] at h
    simp at h
  | some s4 =>
    rw [hum, Option.some_bind, if_neg (by simp), if_neg (by simp)] at h
    injection h with heq
    have ht : t = s4 := (congrArg Prod.snd heq).symm
    rw [ht]
    exact stateInv_undo_merge s i hI hiN h0 s4 hum

/-! ## The invariant holds at every driver-reachable state -/

theorem driver_step_stateInv (d d2 : DriverState) (hI : StateInv d.st)
    (h : driver_step d = some d2) : StateInv d2.st := by
  unfold driver_step at h
  by_cases hc1 : d.cursor < 0
  · rw [if_pos hc1] at h
    simp at h
  · rw [if_neg hc1] at h
    by_cases hc2 : (N : Int) ≤ d.cursor
    · rw [if_pos hc2] at h
      simp at h
    · rw [if_neg hc2] at h
      have hiN : d.cursor.toNat < N := by omega
      have hcast : ((d.cursor.toNat : Nat) : Int) = d.cursor :=
        Int.toNat_of_nonneg (by omega)
      cases hpat : d.st.pattern.getD d.cursor.toNat none with
      | none =>
        rw [hpat] at h
        cases hsp : set_pattern d.st d.cursor (some false) with
        | none =>
          rw [hsp] at h
          simp at h
        | some rp =>
          rw [hsp] at h
          simp only [Option.map_some'] at h
          cases h
          refine stateInv_set_false d.st d.cursor.toNat hI hiN hpat rp.1 rp.2 ?_
          rw [hcast]
          exact hsp
      | some b =>
        cases b with
        | false =>
          rw [hpat] at h
          cases hsp : set_pattern d.st d.cursor (some true) with
          | none =>
            rw [hsp] at h
            simp at h
          | some rp =>
            rw [hsp] at h
            simp only [Option.map_some'] at h
            cases h
            refine stateInv_set_true d.st d.cursor.toNat hI hiN hpat rp.1 rp.2 ?_
            rw [hcast]
            exact hsp
        | true =>
          rw [hpat] at h
          cases hsp : set_pattern d.st d.cursor none with
          | none =>
            rw [hsp] at h
            simp at h
          | some rp =>
            rw [hsp] at h
            simp only [Option.map_some'] at h
            cases h
            refine stateInv_set_none d.st d.cursor.toNat hI hiN hpat rp.1 rp.2 ?_
            rw [hcast]
            exact hsp

set_option maxRecDepth 100000 in
theorem reachable_stateInv (d : DriverState) (hd : Reachable d) : StateInv d.st := by
  induction hd with
  | init =>
    show StateInv init_state
    decide
  | step hr hstep ih => exact driver_step_stateInv _ _ ih hstep

/-! ## Frame facts: fields merge_components never touches -/

theorem absorbLoop_frame (j : Nat) (ks : List Nat) (t u : LPState)
    (h : absorbLoop j ks t = some u) :
    u.pattern = t.pattern ∧ u.live_count = t.live_count ∧
    u.close_undo_list = t.close_undo_list := by
  induction ks generalizing t with
  | nil =>
    simp only [absorbLoop] at h
    cases h
    exact ⟨rfl, rfl, rfl⟩
  | cons k ks ih =>
    simp only [absorbLoop] at h
    cases hfk : alGet? t.freedoms k with
    | none => rw [hfk] at h; simp at h
    | some fk =>
      rw [hfk] at h
      cases hfj : alGet? t.freedoms j with
      | none => rw [hfj] at h; simp at h
      | some fj =>
        rw [hfj] at h
        simp only [Option.some_bind] at h
        have hg := ih _ h
        exact ⟨hg.1, hg.2.1, hg.2.2⟩

theorem merge_components_frame (s t : LPState) (i : Nat)
    (hm : merge_components s i = some t) :
    t.pattern = s.pattern ∧ t.live_count = s.live_count ∧
    t.close_undo_list = s.close_undo_list := by
  unfold merge_components at hm
  cases hcr : collectRoots s i with
  | none => rw [hcr] at hm; simp at hm
  | some nearby =>
    rw [hcr] at hm
    simp only [Option.some_bind] at hm
    cases nearby with
    | nil =>
      cases hm
      exact ⟨rfl, rfl, rfl⟩
    | cons n0 rest =>
      simp only at hm
      obtain ⟨oldf, hof, hm⟩ := Option.bind_eq_some.mp hm
      obtain ⟨t1, hab, hm⟩ := Option.bind_eq_some.mp hm
      obtain ⟨fj, hfj, hm⟩ := Option.bind_eq_some.mp hm
      obtain ⟨f1, f2, f3⟩ := absorbLoop_frame _ _ _ _ hab
      by_cases hifj : i ∈ fj
      · rw [if_pos hifj] at hm
        injection hm with heq
        rw [← heq]
        exact ⟨f1, f2, f3⟩
      · rw [if_neg hifj] at hm
        simp at hm

/-! ## Claim C1: exact three-phase roundtrip -/

/-- C1: from any driver-reachable search state and any in-range Unset cell
`i`, running the backtrack cycle `set_pattern(i, False)`,
`set_pattern(i, True)`, `set_pattern(i, None)` (each returning normally)
restores the grid, the union-find parents and sizes, the component set,
the freedom sets and `live_count` exactly. -/
theorem claim_C1_roundtrip (d : DriverState) (hd : Reachable d) (i : Nat)
    (hiN : i < N) (h0 : d.st.pattern.getD i none = none)
    (A B C : Bool × LPState)
    (hA : set_pattern d.st (i : Int) (some false) = some A)
    (hB : set_pattern A.2 (i : Int) (some true) = some B)
    (hC : set_pattern B.2 (i : Int) none = some C) :
    C.2.pattern = d.st.pattern ∧
    C.2.parents = d.st.parents ∧
    C.2.comp_size = d.st.comp_size ∧
    C.2.components = d.st.components ∧
    C.2.freedoms = d.st.freedoms ∧
    C.2.live_count = d.st.live_count := by
  have hIf := reachable_stateInv d hd
  obtain ⟨h1, h2, h3, h4, h5, h6, h7, h8, h9, h10, h11, h12, h13, h14, h15,
    h16, h17, h18, h19⟩ := hIf
  rw [set_pattern_unfold d.st i (some false) hiN (by rw [h0]; simp),
    set_pattern_pre_none_false d.st i h0, Option.some_bind,
    if_neg (show ¬(some false : Option Bool) = some true by simp),
    if_pos (show (some false : Option Bool) = some false from rfl)] at hA
  have hAf : A.2.pattern = d.st.pattern.set i (some false) ∧
      A.2.live_count = d.st.live_count ∧
      A.2.components = d.st.components ∧
      A.2.parents = d.st.parents ∧
      A.2.comp_size = d.st.comp_size ∧
      A.2.merge_undo_list = d.st.merge_undo_list ∧
      A.2.close_undo_list = alSet d.st.close_undo_list i (closeSweep i d.st.freedoms).1 ∧
      A.2.freedoms = (closeSweep i d.st.freedoms).2.1 := by
    by_cases hok : (close_components
        { d.st with pattern := d.st.pattern.set i (some false) } i).1
    · rw [if_pos hok] at hA
      injection hA with heq
      rw [← heq]
      exact ⟨rfl, rfl, rfl, rfl, rfl, rfl, rfl, rfl⟩
    · rw [if_neg hok] at hA
      injection hA with heq
      rw [← heq]
      by_cases hemit : (close_components
            { d.st with pattern := d.st.pattern.set i (some false) } i).2.components.card = 1 ∧
          final_rule_check (close_components
            { d.st with pattern := d.st.pattern.set i (some false) } i).2 (i : Int) = true
      · rw [if_pos hemit]
        exact ⟨rfl, rfl, rfl, rfl, rfl, rfl, rfl, rfl⟩
      · rw [if_neg hemit]
        exact ⟨rfl, rfl, rfl, rfl, rfl, rfl, rfl, rfl⟩
  obtain ⟨hA2pat, hA2lc, hA2comp, hA2par, hA2cs, hA2mu, hA2cu, hA2fr⟩ := hAf
  have hfreshC : ¬i ∈ alKeys d.st.close_undo_list := by
    intro hk
    have hx := h9 i hk
    rw [h0] at hx
    simp at hx
  have hA0 : A.2.pattern.getD i none = some false := by
    rw [hA2pat]
    exact getD_set_self _ _ _ _ (by rw [h1]; exact hiN)
  rw [set_pattern_unfold A.2 i (some true) hiN (by rw [hA0]; simp)] at hB
  cases hs5c : set_pattern_pre A.2 i (some true) with
  | none =>
    rw [hs5c] at hB
    simp at hB
  | some s5 =>
    rw [hs5c, Option.some_bind, if_pos rfl] at hB
    have hs5eq : s5 = { { A.2 with pattern := A.2.pattern.set i (some true), live_count := A.2.live_count + 1 } with freedoms := d.st.freedoms, close_undo_list := d.st.close_undo_list } := by
      rw [set_pattern_pre_false_true A.2 i hA0] at hs5c
      rw [undo_close_of_close d.st { A.2 with pattern := A.2.pattern.set i (some true), live_count := A.2.live_count + 1 } i hA2fr hA2cu h4 hfreshC] at hs5c
      injection hs5c with heq
      exact heq.symm
    have hs5pat : s5.pattern = d.st.pattern.set i (some true) := by
      rw [hs5eq]
      show A.2.pattern.set i (some true) = d.st.pattern.set i (some true)
      rw [hA2pat, List.set_set]
    have hs5lc : s5.live_count = d.st.live_count + 1 := by
      rw [hs5eq]
      show A.2.live_count + 1 = d.st.live_count + 1
      rw [hA2lc]
    have hs5par : s5.parents = d.st.parents := by
      rw [hs5eq]
      show A.2.parents = d.st.parents
      exact hA2par
    have hs5cs : s5.comp_size = d.st.comp_size := by
      rw [hs5eq]
      show A.2.comp_size = d.st.comp_size
      exact hA2cs
    have hs5comp : s5.components = d.st.components := by
      rw [hs5eq]
      show A.2.components = d.st.components
      exact hA2comp
    have hs5mu : s5.merge_undo_list = d.st.merge_undo_list := by
      rw [hs5eq]
      show A.2.merge_undo_list = d.st.merge_undo_list
      exact hA2mu
    have hs5fr : s5.freedoms = d.st.freedoms := by
      rw [hs5eq]
    cases hm6 : merge_components s5 i with
    | none =>
      rw [hm6] at hB
      simp at hB
    | some s6 =>
      rw [hm6, Option.some_bind] at hB
      obtain ⟨hf6pat, hf6lc, hf6cu⟩ := merge_components_frame s5 s6 i hm6
      have hB2 : B.2 = s6 := by
        by_cases hb1 : max_n < s6.live_count + (s6.components.card : Int) - 1
        · rw [if_pos hb1] at hB
          injection hB with heq
          rw [← heq]
        · rw [if_neg hb1] at hB
          cases hmb : minimum_bridge_length s6 with
          | none =>
            rw [hmb] at hB
            simp at hB
          | some b =>
            rw [hmb, Option.some_bind] at hB
            by_cases hb2 : max_n < s6.live_count + b
            · rw [if_pos hb2] at hB
              injection hB with heq
              rw [← heq]
            · rw [if_neg hb2] at hB
              injection hB with heq
              rw [← heq]
      have hcleanA : d.st.parents.getD i (-1) = -1 :=
        h10 i hiN (by rw [h0]; simp)
      have hpi5 : s5.parents.getD i (-1) = -1 := by
        rw [hs5par]
        exact hcleanA
      have hsi5 : s5.comp_size.getD i 0 = 0 := by
        rw [hs5cs]
        exact h11 i hiN hcleanA
      have hif5 : ¬i ∈ alKeys s5.freedoms := by
        rw [hs5fr]
        exact fun hk => h7 i hk hcleanA
      have him5 : ¬i ∈ alKeys s5.merge_undo_list := by
        rw [hs5mu]
        intro hk
        have hx := h8 i hk
        rw [h0] at hx
        simp at hx
      have hic5 : ¬i ∈ s5.components := by
        rw [hs5comp]
        intro hk
        have hx := (h13 i hk).2
        rw [hcleanA] at hx
        have h0i := Int.natCast_nonneg i
        omega
      have hroots5 : ∀ k, k < N → s5.parents.getD k (-1) = (k : Int) →
          k ∈ s5.components := by
        intro k hkN hr
        rw [hs5comp]
        rw [hs5par] at hr
        exact h12 k hkN hr
      have hplen5 : s5.parents.length = N := by rw [hs5par]; exact h2
      have hslen5 : s5.comp_size.length = N := by rw [hs5cs]; exact h3
      have hgetD6 : s6.pattern.getD i none = some true := by
        rw [hf6pat, hs5pat]
        exact getD_set_self _ _ _ _ (by rw [h1]; exact hiN)
      rw [hB2] at hC
      rw [set_pattern_unfold s6 i none hiN (by rw [hgetD6]; simp)] at hC
      cases hs4c : set_pattern_pre s6 i none with
      | none =>
        rw [hs4c] at hC
        simp at hC
      | some s4 =>
        rw [hs4c, Option.some_bind, if_neg (by simp), if_neg (by simp)] at hC
        injection hC with heqC
        have hC2 : C.2 = s4 := (congrArg Prod.snd heqC).symm
        have hs4eq : s4 = { s6 with
            pattern := s6.pattern.set i none
            live_count := s6.live_count - 1
            parents := s5.parents
            comp_size := s5.comp_size
            components := s5.components
            freedoms := s5.freedoms
            merge_undo_list := s5.merge_undo_list } := by
          rw [set_pattern_pre_true_none s6 i hgetD6] at hs4c
          rw [undo_merge_of_merge s5 s6 i (s6.pattern.set i none)
            (s6.live_count - 1) hplen5 hslen5 hiN hpi5 hsi5 hif5 him5 hic5
            hroots5 hm6] at hs4c
          injection hs4c with heq
          exact heq.symm
        refine ⟨?_, ?_, ?_, ?_, ?_, ?_⟩
        · rw [hC2, hs4eq]
          show s6.pattern.set i none = d.st.pattern
          rw [hf6pat, hs5pat, List.set_set]
          exact set_getD_self (by rw [h1]; exact hiN) h0
        · rw [hC2, hs4eq]
          show s5.parents = d.st.parents
          exact hs5par
        · rw [hC2, hs4eq]
          show s5.comp_size = d.st.comp_size
          exact hs5cs
        · rw [hC2, hs4eq]
          show s5.components = d.st.components
          exact hs5comp
        · rw [hC2, hs4eq]
          show s5.freedoms = d.st.freedoms
          exact hs5fr
        · rw [hC2, hs4eq]
          show s6.live_count - 1 = d.st.live_count
          rw [hf6lc, hs5lc]
          ring

set_option maxRecDepth 100000 in
theorem claim_C1_roundtrip_witness :
    c1C.2.pattern = init_driver.st.pattern ∧
    c1C.2.parents = init_driver.st.parents ∧
    c1C.2.comp_size = init_driver.st.comp_size ∧
    c1C.2.components = init_driver.st.components ∧
    c1C.2.freedoms = init_driver.st.freedoms ∧
    c1C.2.live_count = init_driver.st.live_count :=
  claim_C1_roundtrip init_driver Reachable.init 20 (by decide) (by decide)
    c1A c1B c1C (by decide) (by decide) (by decide)

/-! ## Driver iterates are reachable -/

theorem driverIter_reachable (n : Nat) (d : DriverState) (h : driverIter n = some d) :
    Reachable d := by
  induction n generalizing d with
  | zero =>
    simp only [driverIter] at h
    cases h
    exact Reachable.init
  | succ n ih =>
    simp only [driverIter] at h
    obtain ⟨d0, hd0, hstep⟩ := Option.bind_eq_some.mp h
    exact Reachable.step (ih d0 hd0) hstep

/-! ## Claim C2: the bridge-length estimator is not admissible -/

/-- C2: refuted — the estimator can exceed the true connection cost.  At
`bridge_cfg`, three components with freedom sets {36}, {37} and {39},
`minimum_bridge_length` returns 5, yet the four cells {36, 37, 38, 39}
already connect all three components through the freedom sets and the
Moore adjacency actually used by the search, so the true minimum number of
additional cells is at most 4. -/
theorem claim_C2_estimator_inadmissible :
    bridge_cfg.components.card = 3 ∧
    bridge_cfg.freedoms.map Prod.snd = bridge_fsets ∧
    minimum_bridge_length bridge_cfg = some 5 ∧
    connectsAll bridge_fsets bridge_S = true ∧
    bridge_S.card = 4 :=
  ⟨by decide, by decide, by decide, by decide, by decide⟩

/-! ## Claim C3: rollback of a rejected attempt is deferred, not immediate -/

set_option maxRecDepth 200000 in
/-- C3: refuted as stated — a rejected Dead marking leaves its freedom-set
mutations in place when `set_pattern` returns.  After 38 driver iterations
the call `set_pattern(37, False)` is rejected, yet it returns with
component 18's freedom set emptied instead of its pre-call value. -/
theorem claim_C3_counterexample :
    driverIter 38 = some d38 ∧
    d38.st.pattern.getD 37 none = none ∧
    set_pattern d38.st 37 (some false) = some c3r ∧
    c3r.1 = false ∧
    ¬c3r.2.freedoms = d38.st.freedoms :=
  ⟨by decide, by decide, by decide, by decide, by decide⟩

/-- C3 (amended): rollback of a rejected Dead attempt is deferred to the
next visit of the same cell: the pre-phase of the following
`set_pattern(i, True)` call restores the freedom sets, the close-undo log,
the forest, the component set and the merge log to their values before the
rejected call (with the marker advanced and `live_count` incremented for
the new Alive attempt). -/
theorem claim_C3_deferred_rollback (d : DriverState) (hd : Reachable d) (i : Nat)
    (hiN : i < N) (h0 : d.st.pattern.getD i none = none)
    (r : Bool) (t : LPState)
    (hA : set_pattern d.st (i : Int) (some false) = some (r, t)) :
    ∃ t2, set_pattern_pre t i (some true) = some t2 ∧
      t2.freedoms = d.st.freedoms ∧
      t2.close_undo_list = d.st.close_undo_list ∧
      t2.parents = d.st.parents ∧
      t2.comp_size = d.st.comp_size ∧
      t2.components = d.st.components ∧
      t2.merge_undo_list = d.st.merge_undo_list ∧
      t2.pattern = d.st.pattern.set i (some true) ∧
      t2.live_count = d.st.live_count + 1 := by
  have hIf := reachable_stateInv d hd
  obtain ⟨h1, h2, h3, h4, h5, h6, h7, h8, h9, h10, h11, h12, h13, h14, h15,
    h16, h17, h18, h19⟩ := hIf
  rw [set_pattern_unfold d.st i (some false) hiN (by rw [h0]; simp),
    set_pattern_pre_none_false d.st i h0, Option.some_bind,
    if_neg (show ¬(some false : Option Bool) = some true by simp),
    if_pos (show (some false : Option Bool) = some false from rfl)] at hA
  have hAf : t.pattern = d.st.pattern.set i (some false) ∧
      t.live_count = d.st.live_count ∧
      t.components = d.st.components ∧
      t.parents = d.st.parents ∧
      t.comp_size = d.st.comp_size ∧
      t.merge_undo_list = d.st.merge_undo_list ∧
      t.close_undo_list = alSet d.st.close_undo_list i (closeSweep i d.st.freedoms).1 ∧
      t.freedoms = (closeSweep i d.st.freedoms).2.1 := by
    by_cases hok : (close_components
        { d.st with pattern := d.st.pattern.set i (some false) } i).1
    · rw [if_pos hok] at hA
      injection hA with heq
      injection heq with heq1 heq2
      rw [← heq2]
      exact ⟨rfl, rfl, rfl, rfl, rfl, rfl, rfl, rfl⟩
    · rw [if_neg hok] at hA
      injection hA with heq
      injection heq with heq1 heq2
      rw [← heq2]
      by_cases hemit : (close_components
            { d.st with pattern := d.st.pattern.set i (some false) } i).2.components.card = 1 ∧
          final_rule_check (close_components
            { d.st with pattern := d.st.pattern.set i (some false) } i).2 (i : Int) = true
      · rw [if_pos hemit]
        exact ⟨rfl, rfl, rfl, rfl, rfl, rfl, rfl, rfl⟩
      · rw [if_neg hemit]
        exact ⟨rfl, rfl, rfl, rfl, rfl, rfl, rfl, rfl⟩
  obtain ⟨hA2pat, hA2lc, hA2comp, hA2par, hA2cs, hA2mu, hA2cu, hA2fr⟩ := hAf
  have hfreshC : ¬i ∈ alKeys d.st.close_undo_list := by
    intro hk
    have hx := h9 i hk
    rw [h0] at hx
    simp at hx
  have hA0 : t.pattern.getD i none = some false := by
    rw [hA2pat]
    exact getD_set_self _ _ _ _ (by rw [h1]; exact hiN)
  have hundo := undo_close_of_close d.st
    { t with pattern := t.pattern.set i (some true), live_count := t.live_count + 1 }
    i hA2fr hA2cu h4 hfreshC
  have hpre2 : set_pattern_pre t i (some true) =
      some { { t with pattern := t.pattern.set i (some true), live_count := t.live_count + 1 } with freedoms := d.st.freedoms, close_undo_list := d.st.close_undo_list } := by
    rw [set_pattern_pre_false_true t i hA0]
    exact hundo
  refine ⟨_, hpre2, ?_, ?_, ?_, ?_, ?_, ?_, ?_, ?_⟩
  · rfl
  · rfl
  · show t.parents = d.st.parents
    exact hA2par
  · show t.comp_size = d.st.comp_size
    exact hA2cs
  · show t.components = d.st.components
    exact hA2comp
  · show t.merge_undo_list = d.st.merge_undo_list
    exact hA2mu
  · show t.pattern.set i (some true) = d.st.pattern.set i (some true)
    rw [hA2pat, List.set_set]
  · show t.live_count + 1 = d.st.live_count + 1
    rw [hA2lc]

set_option maxRecDepth 200000 in
theorem claim_C3_deferred_rollback_witness :
    ∃ t2, set_pattern_pre c3r.2 37 (some true) = some t2 ∧
      t2.freedoms = d38.st.freedoms ∧
      t2.close_undo_list = d38.st.close_undo_list ∧
      t2.parents = d38.st.parents ∧
      t2.comp_size = d38.st.comp_size ∧
      t2.components = d38.st.components ∧
      t2.merge_undo_list = d38.st.merge_undo_list ∧
      t2.pattern = d38.st.pattern.set 37 (some true) ∧
      t2.live_count = d38.st.live_count + 1 :=
  claim_C3_deferred_rollback d38 (driverIter_reachable 38 d38 (by decide)) 37
    (by decide) (by decide) c3r.1 c3r.2 (by decide)

/-! ## Claim C4: the rule oracle is per-polarity disjunctive, not conjunctive -/

theorem ruleBounds_spec_aux (s : LPState) (final : Bool) (i : Int) :
    ∀ (ds : List Int) (m0 x0 : Nat),
      ds.foldl (fun p d => ruleBoundsStep s final p (i + d)) (m0, x0) =
        (m0 + (ds.filter (fun d => decide (
            ¬(i + d < 0 ∨ (N : Int) ≤ i + d ∨
              s.pattern.getD (i + d).toNat none = some false) ∧
            s.pattern.getD (i + d).toNat none = some true))).length,
         x0 - (ds.filter (fun d => decide (
            (i + d < 0 ∨ (N : Int) ≤ i + d ∨
              s.pattern.getD (i + d).toNat none = some false) ∨
            (¬s.pattern.getD (i + d).toNat none = some true ∧
              (final = true ∨ max_n ≤ s.live_count))))).length) := by
  intro ds
  induction ds with
  | nil =>
    intro m0 x0
    simp
  | cons d ds ih =>
    intro m0 x0
    simp only [List.foldl_cons, List.filter_cons]
    by_cases hc1 : i + d < 0 ∨ (N : Int) ≤ i + d ∨
        s.pattern.getD (i + d).toNat none = some false
    · have hstep : ruleBoundsStep s final (m0, x0) (i + d) = (m0, x0 - 1) := by
        unfold ruleBoundsStep
        rw [if_pos hc1]
      rw [hstep, ih]
      rw [show decide ((i + d < 0 ∨ (N : Int) ≤ i + d ∨
          s.pattern.getD (i + d).toNat none = some false) ∨
          (¬s.pattern.getD (i + d).toNat none = some true ∧
            (final = true ∨ max_n ≤ s.live_count))) = true by
        simp only [decide_eq_true_eq]
        exact Or.inl hc1]
      rw [show decide (¬(i + d < 0 ∨ (N : Int) ≤ i + d ∨
          s.pattern.getD (i + d).toNat none = some false) ∧
          s.pattern.getD (i + d).toNat none = some true) = false by
        simp only [decide_eq_false_iff_not]
        exact fun hx => hx.1 hc1]
      rw [if_neg Bool.false_ne_true, if_pos (rfl : (true : Bool) = true)]
      simp only [List.length_cons, Prod.mk.injEq]
      exact ⟨trivial, by omega⟩
    · by_cases hc2 : s.pattern.getD (i + d).toNat none = some true
      · have hstep : ruleBoundsStep s final (m0, x0) (i + d) = (m0 + 1, x0) := by
          unfold ruleBoundsStep
          rw [if_neg hc1, if_pos hc2]
        rw [hstep, ih]
        rw [show decide ((i + d < 0 ∨ (N : Int) ≤ i + d ∨
            s.pattern.getD (i + d).toNat none = some false) ∨
            (¬s.pattern.getD (i + d).toNat none = some true ∧
              (final = true ∨ max_n ≤ s.live_count))) = false by
          simp only [decide_eq_false_iff_not]
          rintro (hx | hx)
          · exact hc1 hx
          · exact hx.1 hc2]
        rw [show decide (¬(i + d < 0 ∨ (N : Int) ≤ i + d ∨
            s.pattern.getD (i + d).toNat none = some false) ∧
            s.pattern.getD (i + d).toNat none = some true) = true by
          simp only [decide_eq_true_eq]
          exact ⟨hc1, hc2⟩]
        rw [if_pos (rfl : (true : Bool) = true), if_neg Bool.false_ne_true]
        simp only [List.length_cons, Prod.mk.injEq]
        exact ⟨by omega, trivial⟩
      · by_cases hc3 : final = true ∨ max_n ≤ s.live_count
        · have hstep : ruleBoundsStep s final (m0, x0) (i + d) = (m0, x0 - 1) := by
            unfold ruleBoundsStep
            rw [if_neg hc1, if_neg hc2, if_pos hc3]
          rw [hstep, ih]
          rw [show decide ((i + d < 0 ∨ (N : Int) ≤ i + d ∨
              s.pattern.getD (i + d).toNat none = some false) ∨
              (¬s.pattern.getD (i + d).toNat none = some true ∧
                (final = true ∨ max_n ≤ s.live_count))) = true by
            simp only [decide_eq_true_eq]
            exact Or.inr ⟨hc2, hc3⟩]
          rw [show decide (¬(i + d < 0 ∨ (N : Int) ≤ i + d ∨
              s.pattern.getD (i + d).toNat none = some false) ∧
              s.pattern.getD (i + d).toNat none = some true) = false by
            simp only [decide_eq_false_iff_not]
            exact fun hx => hc2 hx.2]
          rw [if_neg Bool.false_ne_true, if_pos (rfl : (true : Bool) = true)]
          simp only [List.length_cons, Prod.mk.injEq]
          exact ⟨trivial, by omega⟩
        · have hstep : ruleBoundsStep s final (m0, x0) (i + d) = (m0, x0) := by
            unfold ruleBoundsStep
            rw [if_neg hc1, if_neg hc2, if_neg hc3]
          rw [hstep, ih]
          rw [show decide ((i + d < 0 ∨ (N : Int) ≤ i + d ∨
              s.pattern.getD (i + d).toNat none = some false) ∨
              (¬s.pattern.getD (i + d).toNat none = some true ∧
                (final = true ∨ max_n ≤ s.live_count))) = false by
            simp only [decide_eq_false_iff_not]
            rintro (hx | hx)
            · exact hc1 hx
            · exact hc3 hx.2]
          rw [show decide (¬(i + d < 0 ∨ (N : Int) ≤ i + d ∨
              s.pattern.getD (i + d).toNat none = some false) ∧
              s.pattern.getD (i + d).toNat none = some true) = false by
            simp only [decide_eq_false_iff_not]
            exact fun hx => hc2 hx.2]
          rw [if_neg Bool.false_ne_true, if_neg Bool.false_ne_true]

theorem ruleBounds_eq_spec (s : LPState) (i : Int) (final : Bool) :
    ruleBounds s i final = (spec_min_neighbors s i, spec_max_neighbors s i final) := by
  unfold ruleBounds spec_min_neighbors spec_max_neighbors
  rw [ruleBounds_spec_aux s final i neighbors 0 8]
  simp

/-- C4 (amended): `check_rule_at` does compute the feasible neighbor range
exactly as described, but it reports the cell feasible if at least ONE of
the polarities still open for its current state admits a neighbor count —
a disjunction over open polarities, not a conjunction. -/
theorem claim_C4_oracle (s : LPState) (i : Int) (final : Bool) :
    ruleBounds s i final = (spec_min_neighbors s i, spec_max_neighbors s i final) ∧
    (check_rule_at s i final = true ↔
      ((¬cellState s i = some true ∧
        existsInRange (ruleBounds s i final).1 (ruleBounds s i final).2
          (fun n => !(birth.getD n false)) = true) ∨
       (¬cellState s i = some false ∧
        existsInRange (ruleBounds s i final).1 (ruleBounds s i final).2
          (fun n => survive.getD n false) = true))) := by
  refine ⟨ruleBounds_eq_spec s i final, ?_⟩
  unfold check_rule_at
  simp only [Bool.or_eq_true, Bool.and_eq_true, decide_eq_true_eq, ne_eq]

/-- C4: refuted as stated — at `oracle_cex_state` cell 40 is Unset with
live-neighbor range exactly [2,2]; the Dead polarity is satisfiable
(birth[2] is false) but the Alive polarity is not (survive[2] is false),
so the claimed per-polarity conjunction is false while the code accepts. -/
theorem claim_C4_counterexample :
    ruleBounds oracle_cex_state 40 false = (2, 2) ∧
    cellState oracle_cex_state 40 = none ∧
    check_rule_at oracle_cex_state 40 false = true ∧
    claim_rule_feasible oracle_cex_state 40 false = false :=
  ⟨by decide, by decide, by decide, by decide⟩

/-! ## Claim C5: a sealing Dead marking always rejects, emitting on success -/

/-- C5: whenever marking cell `i` Dead empties some component's freedom set
(the close sweep reports failure), `set_pattern(i, False)` returns `False`,
and the completed pattern is emitted exactly when a single component
remains and the final rule check passes. -/
theorem claim_C5_sealing (s : LPState) (i : Nat) (hiN : i < N)
    (h0 : s.pattern.getD i none = none) (r : Bool) (t : LPState)
    (h : set_pattern s (i : Int) (some false) = some (r, t))
    (hfail : (close_components
      { s with pattern := s.pattern.set i (some false) } i).1 = false) :
    r = false ∧
    (t.output = s.output ++ [t.pattern] ↔
      t.components.card = 1 ∧ final_rule_check t (i : Int) = true) := by
  rw [set_pattern_unfold s i (some false) hiN (by rw [h0]; simp),
    set_pattern_pre_none_false s i h0, Option.some_bind,
    if_neg (show ¬(some false : Option Bool) = some true by simp),
    if_pos (show (some false : Option Bool) = some false from rfl)] at h
  rw [if_neg (show ¬(close_components
      { s with pattern := s.pattern.set i (some false) } i).1 = true by
    rw [hfail]
    simp)] at h
  by_cases hcond : (close_components
        { s with pattern := s.pattern.set i (some false) } i).2.components.card = 1 ∧
      final_rule_check (close_components
        { s with pattern := s.pattern.set i (some false) } i).2 (i : Int) = true
  · rw [if_pos hcond] at h
    injection h with heq
    injection heq with heq1 heq2
    refine ⟨heq1.symm, ?_⟩
    rw [← heq2]
    constructor
    · intro _
      exact ⟨hcond.1, hcond.2⟩
    · intro _
      rfl
  · rw [if_neg hcond] at h
    injection h with heq
    injection heq with heq1 heq2
    refine ⟨heq1.symm, ?_⟩
    rw [← heq2]
    constructor
    · intro hout
      exfalso
      have hout2 : s.output = s.output ++ [(close_components
          { s with pattern := s.pattern.set i (some false) } i).2.pattern] := hout
      have hlen := congrArg List.length hout2
      simp at hlen
    · intro hcc
      exact absurd hcc hcond

set_option maxRecDepth 400000 in
theorem claim_C5_sealing_witness :
    c3r.1 = false ∧
    (c3r.2.output = d38.st.output ++ [c3r.2.pattern] ↔
      c3r.2.components.card = 1 ∧ final_rule_check c3r.2 (37 : Int) = true) :=
  claim_C5_sealing d38.st 37 (by decide) (by decide) c3r.1 c3r.2 (by decide)
    (by decide)

/-! ## Claim C6: the whole first row is forced Dead, not just two cells -/

/-- C6 (amended): the hard-coded domain constraints of `set_pattern` reject
an Alive assignment at every cell of the whole first grid row (all
`i < start`, i.e. the first `width` = 18 scan positions), reject a
non-Alive assignment at the anchor cell `start`, and are otherwise
transparent: the tail check reduces to the rule oracle. -/
theorem claim_C6_domain (s : LPState) (i : Nat) (st : Option Bool) :
    (st = some true → i < start → set_pattern_tail s i st = false) ∧
    (¬st = some true → i = start → set_pattern_tail s i st = false) ∧
    (st = some true → start ≤ i → set_pattern_tail s i st = check_rule_near s (i : Int)) ∧
    (¬st = some true → ¬i = start → set_pattern_tail s i st = check_rule_near s (i : Int)) := by
  unfold set_pattern_tail
  refine ⟨?_, ?_, ?_, ?_⟩
  · intro ht hlt
    rw [if_pos ⟨ht, hlt⟩]
  · intro ht heq
    rw [if_neg (fun hc => ht hc.1), if_pos ⟨ht, heq⟩]
  · intro ht hge
    rw [if_neg (fun hc => absurd hc.2 (by omega)), if_neg (fun hc => hc.1 ht)]
  · intro ht hne
    rw [if_neg (fun hc => ht hc.1), if_neg (fun hc => hne hc.2)]

theorem claim_C6_domain_witness :
    set_pattern_tail init_state 2 (some true) = false ∧
    set_pattern_tail init_state 18 (some false) = false ∧
    set_pattern_tail init_state 20 (some true) = check_rule_near init_state 20 :=
  ⟨(claim_C6_domain init_state 2 (some true)).1 rfl (by decide),
   (claim_C6_domain init_state 18 (some false)).2.1 (by decide) rfl,
   (claim_C6_domain init_state 20 (some true)).2.2.1 rfl (by decide)⟩

set_option maxRecDepth 400000 in
/-- C6: refuted as stated — cell 2 is a pre-anchor cell that is not among
the first two scan positions, yet its Alive assignment is rejected by the
hard-coded constraint even though the rule oracle would accept it. -/
theorem claim_C6_counterexample :
    set_pattern init_state 2 (some true) = some c6r ∧
    c6r.1 = false ∧
    check_rule_near c6r.2 2 = true ∧
    set_pattern_tail c6r.2 2 (some true) = false :=
  ⟨by decide, by decide, by decide, by decide⟩

/-! ## Claim C7: the two budget gates after a merge -/

/-- C7: immediately after the component merge of a newly Alive cell,
`set_pattern` rejects if `live_count + components - 1` exceeds the budget,
then rejects if `live_count + minimum_bridge_length()` exceeds the budget,
and otherwise proceeds to the remaining tail checks. -/
theorem claim_C7_budget (s : LPState) (i : Nat) (hiN : i < N)
    (h0 : s.pattern.getD i none = some false)
    (s5 s6 : LPState)
    (hpre : set_pattern_pre s i (some true) = some s5)
    (hm : merge_components s5 i = some s6) :
    (max_n < s6.live_count + (s6.components.card : Int) - 1 →
      set_pattern s (i : Int) (some true) = some (false, s6)) ∧
    (∀ b, minimum_bridge_length s6 = some b →
      ¬max_n < s6.live_count + (s6.components.card : Int) - 1 →
      max_n < s6.live_count + b →
      set_pattern s (i : Int) (some true) = some (false, s6)) ∧
    (∀ b, minimum_bridge_length s6 = some b →
      ¬max_n < s6.live_count + (s6.components.card : Int) - 1 →
      ¬max_n < s6.live_count + b →
      set_pattern s (i : Int) (some true) =
        some (set_pattern_tail s6 i (some true), s6)) := by
  refine ⟨?_, ?_, ?_⟩
  · intro hg
    rw [set_pattern_unfold s i (some true) hiN (by rw [h0]; simp), hpre,
      Option.some_bind, if_pos (show (some true : Option Bool) = some true from rfl),
      hm, Option.some_bind, if_pos hg]
  · intro b hb hg1 hg2
    rw [set_pattern_unfold s i (some true) hiN (by rw [h0]; simp), hpre,
      Option.some_bind, if_pos (show (some true : Option Bool) = some true from rfl),
      hm, Option.some_bind, if_neg hg1, hb, Option.some_bind, if_pos hg2]
  · intro b hb hg1 hg2
    rw [set_pattern_unfold s i (some true) hiN (by rw [h0]; simp), hpre,
      Option.some_bind, if_pos (show (some true : Option Bool) = some true from rfl),
      hm, Option.some_bind, if_neg hg1, hb, Option.some_bind, if_neg hg2]

set_option maxRecDepth 400000 in
theorem claim_C7_budget_witness :
    set_pattern c1A.2 20 (some true) =
      some (set_pattern_tail c7s6 20 (some true), c7s6) :=
  (claim_C7_budget c1A.2 20 (by decide) (by decide) c7s5 c7s6 (by decide)
    (by decide)).2.2 0 (by decide) (by decide) (by decide)

/-! ## Claim C9: out-of-range indices are rejected no-ops -/

/-- C9: calling `set_pattern` with an out-of-range index returns `False`
and the entire search state unchanged. -/
theorem claim_C9_out_of_range (s : LPState) (i : Int) (st : Option Bool)
    (h : i < 0 ∨ (N : Int) ≤ i) :
    set_pattern s i st = some (false, s) := by
  unfold set_pattern
  rw [if_pos h]

theorem claim_C9_out_of_range_witness :
    set_pattern init_state 306 (some true) = some (false, init_state) :=
  claim_C9_out_of_range init_state 306 (some true) (by decide)

/-! ## Claim C10: the bridge estimator reads only components and freedoms -/

/-- C10: `minimum_bridge_length` is a pure function of the component set
and the freedom sets: two states agreeing on those two fields get the same
estimate, whatever their grid, forest, counters or logs. -/
theorem claim_C10_mbl_frame (s t : LPState)
    (hc : s.components = t.components) (hf : s.freedoms = t.freedoms) :
    minimum_bridge_length s = minimum_bridge_length t := by
  unfold minimum_bridge_length
  rw [hc, hf]

theorem claim_C10_mbl_frame_witness :
    minimum_bridge_length
      { init_state with live_count := 7, pattern := List.replicate N (some true) } =
      minimum_bridge_length init_state :=
  claim_C10_mbl_frame _ _ rfl rfl

end Lifeplets
